import Mathlib

/-!
# Verification of the cursor_gui_patch patch engine

A shallow embedding, in Lean, of the text-transformation patch units
(`patches/autorun.py`, `patches/models.py`, `patches/autorun_workbench.py`),
the staleness cache (`cache.py`), the backup store (`backup.py`), the
orchestration engine (`patching.py`) and the CLI dispatch (`cli.py`) of the
`cursor_gui_patch` repository, together with proofs about the embedded
definitions.

Modelling conventions:
* File content is a `List Char` (Python `str`); the permissive
  `bytes.decode("utf-8", errors="replace")` step is the identity on the
  textual model.
* Python regular expressions are embedded as deterministic maximal-munch
  matchers.  Every quantified sub-pattern used by the source
  (`\s+`, `\s*`, `\w+`, `[^}]*`) is immediately followed by a literal whose
  first character is outside the quantified class, so greedy matching with
  backtracking coincides with maximal munch and the matchers below compute
  exactly the Python match.  `\s` and `\w` are modelled over their ASCII
  ranges; the patch targets are ASCII JavaScript bundles.
* `re.sub` / `re.subn` scan left to right, replace non-overlapping matches
  and resume after each match; the scanners below do the same, with a fuel
  argument (`content.length` steps suffice since every match consumes at
  least one character).
-/

namespace CGP

/-- Textual file content: a Python `str` as a list of characters. -/
abbrev Content := List Char

/-- Convert a Lean string literal to `Content`. -/
def str (s : String) : Content := s.data

/-- Python's substring test `needle in hay` (empty needle is in everything). -/
def occurs (needle hay : Content) : Bool :=
  match hay with
  | [] => needle.isEmpty
  | _ :: t => needle.isPrefixOf hay || occurs needle t

theorem occurs_infix_iff (n h : Content) : occurs n h = true ↔ n <:+: h := by
  induction h with
  | nil =>
    simp [occurs, List.isEmpty_iff, List.infix_nil]
  | cons c t ih =>
    simp only [occurs, Bool.or_eq_true, List.isPrefixOf_iff_prefix, ih]
    constructor
    · rintro (hp | hi)
      · exact hp.isInfix
      · exact List.infix_cons hi
    · rintro ⟨s, u, hsu⟩
      cases s with
      | nil => exact Or.inl ⟨u, by simpa using hsu⟩
      | cons x xs =>
        right
        refine ⟨xs, u, ?_⟩
        simpa using congrArg List.tail hsu

theorem occurs_append_left {n a : Content} (b : Content) (h : occurs n a = true) :
    occurs n (a ++ b) = true := by
  rw [occurs_infix_iff] at h ⊢
  exact h.trans (List.prefix_append a b).isInfix

theorem occurs_append_right {n b : Content} (a : Content) (h : occurs n b = true) :
    occurs n (a ++ b) = true := by
  rw [occurs_infix_iff] at h ⊢
  exact h.trans (List.suffix_append a b).isInfix

theorem occurs_middle (a b : Content) (n : Content) : occurs n (a ++ n ++ b) = true := by
  rw [occurs_infix_iff]
  exact ⟨a, b, rfl⟩

theorem occurs_of_infix_of_occurs {x n h : Content} (h1 : occurs x n = true)
    (h2 : occurs n h = true) : occurs x h = true := by
  rw [occurs_infix_iff] at h1 h2 ⊢
  exact h1.trans h2

/-- Fuel-driven core of Python `s.replace(old, new, cnt)` for nonempty
`old`; `fuel = s.length` suffices since every step consumes at least one
character. -/
def pyReplaceF (old new : Content) : Nat → Nat → Content → Content
  | _, _, [] => []
  | _, 0, s => s
  | 0, _, s => s
  | fuel + 1, cnt' + 1, c :: t =>
    if old.isPrefixOf (c :: t) then
      new ++ pyReplaceF old new fuel cnt' ((c :: t).drop old.length)
    else
      c :: pyReplaceF old new fuel (cnt' + 1) t

/-- Python `s.replace(old, new, cnt)`: replace the leftmost `cnt`
non-overlapping occurrences of `old`, scanning left to right.  The source
never calls `replace` with an empty `old`; that case is the identity here. -/
def pyReplace (s old new : Content) (cnt : Nat) : Content :=
  if old = [] then s else pyReplaceF old new s.length cnt s

/-- Fuel-driven core of Python `s.replace(old, new)` for nonempty `old`. -/
def pyReplaceAllF (old new : Content) : Nat → Content → Content
  | _, [] => []
  | 0, s => s
  | fuel + 1, c :: t =>
    if old.isPrefixOf (c :: t) then
      new ++ pyReplaceAllF old new fuel ((c :: t).drop old.length)
    else
      c :: pyReplaceAllF old new fuel t

/-- Python `s.replace(old, new)` (no count limit). -/
def pyReplaceAll (s old new : Content) : Content :=
  if old = [] then s else pyReplaceAllF old new s.length s

/-! ## Regex components

Each matcher tries to match its pattern at the head of the input and, on
success, returns the matched text together with the rest of the input.
-/

/-- A matcher returning captures of type `α`, the matched text and the rest. -/
abbrev Matcher (α : Type) := Content → Option (α × Content × Content)

/-- ASCII model of Python's `\s` class for `str` patterns. -/
def isWsChar (c : Char) : Bool :=
  c == ' ' || c == '\t' || c == '\n' || c == '\r' || c == '\x0b' || c == '\x0c'

/-- ASCII model of Python's `\w` class for `str` patterns. -/
def isWordChar (c : Char) : Bool := c.isAlphanum || c == '_'

/-- A component matcher: matched text and rest, no captures. -/
abbrev Comp := Content → Option (Content × Content)

/-- Match a literal. -/
def litP (lit : Content) : Comp := fun s =>
  if lit.isPrefixOf s then some (lit, s.drop lit.length) else none

/-- Match `\s+` (maximal munch; the source always follows it by a
non-whitespace literal, so this is the Python match). -/
def ws1P : Comp := fun s =>
  let w := s.takeWhile isWsChar
  if w.isEmpty then none else some (w, s.dropWhile isWsChar)

/-- Match `\s*` (maximal munch). -/
def ws0P : Comp := fun s => some (s.takeWhile isWsChar, s.dropWhile isWsChar)

/-- Match `\w+` (maximal munch). -/
def word1P : Comp := fun s =>
  let w := s.takeWhile isWordChar
  if w.isEmpty then none else some (w, s.dropWhile isWordChar)

/-- Match `[^}]*` (maximal munch). -/
def nonBrace0P : Comp := fun s =>
  some (s.takeWhile (fun c => !(c == '}')), s.dropWhile (fun c => !(c == '}')))

/-- Sequence two components, concatenating their matched text. -/
def pseq (p q : Comp) : Comp := fun s =>
  (p s).bind fun pr => (q pr.2).map fun qr => (pr.1 ++ qr.1, qr.2)

/-- Sequence a list of components. -/
def pseqAll : List Comp → Comp
  | [] => fun s => some ([], s)
  | p :: ps => pseq p (pseqAll ps)

/-- A component is sound when its matched text plus the rest is the input. -/
def CompSound (p : Comp) : Prop :=
  ∀ s m r, p s = some (m, r) → m ++ r = s

theorem litP_sound (lit : Content) : CompSound (litP lit) := by
  intro s m r h
  simp only [litP] at h
  split at h
  · rename_i hp
    rw [List.isPrefixOf_iff_prefix] at hp
    obtain ⟨u, hu⟩ := hp
    cases h
    subst hu
    simp
  · exact absurd h (by simp)

theorem takeWhile_dropWhile_sound (f : Char → Bool) (s : Content) :
    s.takeWhile f ++ s.dropWhile f = s := List.takeWhile_append_dropWhile f s

theorem ws1P_sound : CompSound ws1P := by
  intro s m r h
  simp only [ws1P] at h
  split at h
  · exact absurd h (by simp)
  · cases h
    exact takeWhile_dropWhile_sound _ _

theorem ws0P_sound : CompSound ws0P := by
  intro s m r h
  cases h
  exact takeWhile_dropWhile_sound _ _

theorem word1P_sound : CompSound word1P := by
  intro s m r h
  simp only [word1P] at h
  split at h
  · exact absurd h (by simp)
  · cases h
    exact takeWhile_dropWhile_sound _ _

theorem nonBrace0P_sound : CompSound nonBrace0P := by
  intro s m r h
  cases h
  exact takeWhile_dropWhile_sound _ _

theorem pseq_sound {p q : Comp} (hp : CompSound p) (hq : CompSound q) :
    CompSound (pseq p q) := by
  intro s m r h
  simp only [pseq] at h
  cases hps : p s with
  | none => simp [hps] at h
  | some v =>
    obtain ⟨m1, r1⟩ := v
    simp only [hps, Option.some_bind] at h
    cases hqs : q r1 with
    | none => simp [hqs] at h
    | some w =>
      obtain ⟨m2, r2⟩ := w
      simp only [hqs, Option.map_some] at h
      cases h
      rw [List.append_assoc, hq _ _ _ hqs, hp _ _ _ hps]

theorem pseqAll_sound {ps : List Comp} (h : ∀ p ∈ ps, CompSound p) :
    CompSound (pseqAll ps) := by
  induction ps with
  | nil => intro s m r hh; cases hh; simp
  | cons p ps ih =>
    exact pseq_sound (h p (by simp)) (ih fun q hq => h q (List.mem_cons_of_mem _ hq))

/-! ## Scanners: `re.subn` / `re.sub` / `re.finditer`

Python's scanners walk the string left to right, try the pattern at each
position, replace (or record) non-overlapping matches and resume directly
after each match.  `fuel` bounds the recursion; `content.length` steps
suffice because every pattern of the source consumes at least one character
per match.
-/

/-- A matcher is sound when the matched text plus the rest is the input. -/
def MatcherSound {α : Type} (m : Matcher α) : Prop :=
  ∀ s a mt r, m s = some (a, mt, r) → mt ++ r = s

/-- View a capture-free component as a `Matcher Unit`. -/
def compToMatcher (p : Comp) : Matcher Unit := fun s =>
  (p s).map fun pr => ((), pr.1, pr.2)

theorem compToMatcher_sound {p : Comp} (hp : CompSound p) :
    MatcherSound (compToMatcher p) := by
  intro s a mt r h
  simp only [compToMatcher] at h
  cases hps : p s with
  | none => simp [hps] at h
  | some v =>
    rw [hps] at h
    cases h
    exact hp _ _ _ hps

/-- `re.sub(pattern, repl, s)` with a replacement function and a match
counter.  `rep pos captures matchedText` returns the emitted piece and how
much it adds to the counter (`re.subn` counts every match; `ModelsPatch`
counts only rewritten sites via its `nonlocal total`). -/
def subScan {α : Type} (m : Matcher α) (rep : Nat → α → Content → Content × Nat) :
    Nat → Nat → Content → Content × Nat
  | 0, _, s => (s, 0)
  | _ + 1, _, [] => ([], 0)
  | fuel + 1, pos, c :: t =>
    match m (c :: t) with
    | some (a, mt, rest) =>
      let pr := rep pos a mt
      let out := subScan m rep fuel (pos + mt.length) rest
      (pr.1 ++ out.1, out.2 + pr.2)
    | none =>
      let out := subScan m rep fuel (pos + 1) t
      (c :: out.1, out.2)

/-- `re.finditer`: all non-overlapping matches as (start, captures, text). -/
def findScan {α : Type} (m : Matcher α) : Nat → Nat → Content → List (Nat × α × Content)
  | 0, _, _ => []
  | _ + 1, _, [] => []
  | fuel + 1, pos, c :: t =>
    match m (c :: t) with
    | some (a, mt, rest) => (pos, a, mt) :: findScan m fuel (pos + mt.length) rest
    | none => findScan m fuel (pos + 1) t

/-- `re.subn` with a fixed replacement string. -/
def pySubnFixed (p : Comp) (repl : Content) (s : Content) : Content × Nat :=
  subScan (compToMatcher p) (fun _ _ _ => (repl, 1)) s.length 0 s

/-- If the counter stayed zero and zero-increment pieces echo the matched
text, the scan left the content unchanged. -/
theorem subScan_count_zero {α : Type} {m : Matcher α}
    {rep : Nat → α → Content → Content × Nat} (hm : MatcherSound m)
    (hrep : ∀ pos a mt, (rep pos a mt).2 = 0 → (rep pos a mt).1 = mt) :
    ∀ fuel pos s, (subScan m rep fuel pos s).2 = 0 → (subScan m rep fuel pos s).1 = s := by
  intro fuel
  induction fuel with
  | zero => intro pos s _; rfl
  | succ fuel ih =>
    intro pos s h
    cases s with
    | nil => rfl
    | cons c t =>
      simp only [subScan] at h ⊢
      cases hms : m (c :: t) with
      | some v =>
        obtain ⟨a, mt, rest⟩ := v
        simp only [hms] at h ⊢
        have hz : (rep pos a mt).2 = 0 ∧ (subScan m rep fuel (pos + mt.length) rest).2 = 0 := by
          omega
        rw [ih _ _ hz.2, hrep _ _ _ hz.1]
        exact hm _ _ _ _ hms
      | none =>
        simp only [hms] at h ⊢
        rw [ih _ _ h]

/-- If the counter is positive and every counted piece contains `target`,
the output contains `target`. -/
theorem subScan_count_pos_occurs {α : Type} {m : Matcher α}
    {rep : Nat → α → Content → Content × Nat} {target : Content}
    (hrep : ∀ pos a mt, 1 ≤ (rep pos a mt).2 → occurs target (rep pos a mt).1 = true) :
    ∀ fuel pos s, 1 ≤ (subScan m rep fuel pos s).2 →
      occurs target (subScan m rep fuel pos s).1 = true := by
  intro fuel
  induction fuel with
  | zero => intro pos s h; simp [subScan] at h
  | succ fuel ih =>
    intro pos s h
    cases s with
    | nil => simp [subScan] at h
    | cons c t =>
      simp only [subScan] at h ⊢
      cases hms : m (c :: t) with
      | some v =>
        obtain ⟨a, mt, rest⟩ := v
        simp only [hms] at h ⊢
        rcases Nat.lt_or_ge 0 (rep pos a mt).2 with hp | hp
        · exact occurs_append_left _ (hrep _ _ _ hp)
        · have : 1 ≤ (subScan m rep fuel (pos + mt.length) rest).2 := by omega
          exact occurs_append_right _ (ih _ _ this)
      | none =>
        simp only [hms] at h ⊢
        have := ih _ _ h
        have hc : (c :: (subScan m rep fuel (pos + 1) t).1) =
            [c] ++ (subScan m rep fuel (pos + 1) t).1 := rfl
        rw [hc]
        exact occurs_append_right _ this

/-! ## Patch units -/

/-- `PatchResult` from `patches/base.py`. -/
structure PatchResult where
  applied : Bool := false
  already_patched : Bool := false
  not_applicable : Bool := false
  replacements : Nat := 0
  details : List String := []
deriving Repr, DecidableEq

namespace AutoRunPatch

/-- `_MARKER` of `patches/autorun.py`. -/
def marker : Content := str "CGP_PATCH_AUTORUN_DISABLED"

/-- `_RE_METHOD_IMPL`: the method-implementation pattern, componentwise. -/
def mMethodImpl : Comp :=
  pseqAll [
    litP (str "async"), ws1P, litP (str "getAutoRunControls"), ws0P,
    litP (str "("), ws0P, litP (str ")"), ws0P,
    litP (str "\x7bconst"), ws1P, word1P,
    litP (str "=await"), ws1P,
    litP (str "this.getTeamAdminSettings();if("), word1P,
    litP (str "?.autoRunControls?.enabled)return\x7b"), nonBrace0P,
    litP (str "\x7d\x7d")]

/-- `_RE_CALL_SITE`: `this.teamSettingsService.getAutoRunControls\s*\(\s*\)`. -/
def mCallSite : Comp :=
  pseqAll [
    litP (str "this.teamSettingsService.getAutoRunControls"), ws0P,
    litP (str "("), ws0P, litP (str ")")]

/-- `method_replacement` in `AutoRunPatch.apply`. -/
def methodReplacement : Content :=
  str "async getAutoRunControls()\x7breturn void 0/* CGP_PATCH_AUTORUN_DISABLED */\x7d"

/-- `call_replacement` in `AutoRunPatch.apply`. -/
def callReplacement : Content :=
  str "Promise.resolve(void 0)/* CGP_PATCH_AUTORUN_DISABLED */"

/-- `AutoRunPatch.is_applicable`. -/
def is_applicable (content : Content) : Bool :=
  occurs (str "getAutoRunControls") content &&
    occurs (str "teamSettingsService") content

/-- `AutoRunPatch.apply`. -/
def apply (content : Content) : Content × PatchResult :=
  if occurs marker content then
    (content, { already_patched := true })
  else if !is_applicable content then
    (content, { not_applicable := true })
  else
    let s1 := pySubnFixed mMethodImpl methodReplacement content
    let s2 := pySubnFixed mCallSite callReplacement s1.1
    let total := s1.2 + s2.2
    let details :=
      (if s1.2 ≠ 0 then
        ["Replaced " ++ toString s1.2 ++ " method implementation(s)"] else [])
      ++ (if s2.2 ≠ 0 then
        ["Replaced " ++ toString s2.2 ++ " call site(s)"] else [])
    if 0 < total then
      (s2.1, { applied := true, replacements := total, details := details })
    else
      (s2.1, { not_applicable := true, details := details })

theorem mMethodImpl_sound : CompSound mMethodImpl := by
  apply pseqAll_sound
  intro p hp
  simp only [mMethodImpl, List.mem_cons, List.not_mem_nil, or_false] at hp
  rcases hp with h | h | h | h | h | h | h | h | h | h | h | h | h | h | h | h | h | h <;>
    subst h
  all_goals first
    | exact litP_sound _
    | exact ws1P_sound
    | exact ws0P_sound
    | exact word1P_sound
    | exact nonBrace0P_sound

theorem mCallSite_sound : CompSound mCallSite := by
  apply pseqAll_sound
  intro p hp
  simp only [mCallSite, List.mem_cons, List.not_mem_nil, or_false] at hp
  rcases hp with h | h | h | h | h <;> subst h
  all_goals first
    | exact litP_sound _
    | exact ws0P_sound

end AutoRunPatch

namespace ModelsPatch

/-- `_MARKER` of `patches/models.py`. -/
def marker : Content := str "CGP_PATCH_MODELS_AVAILABLE"

def descriptorLit1 : Content := str "getUsableModels:\x7bname:\"GetUsableModels\",I:"
def descriptorLit2 : Content := str ".GetUsableModelsRequest,O:"
def descriptorLit3 : Content := str ".GetUsableModelsResponse,kind:"
def descriptorLit4 : Content := str ".MethodKind.Unary\x7d"

/-- `_RE_DESCRIPTOR` with captures `(prefix, kind_var)`; the second
occurrence of the prefix is the back-reference `\1`. -/
def mDescriptor : Matcher (Content × Content) := fun s =>
  (litP descriptorLit1 s).bind fun p1 =>
  (word1P p1.2).bind fun p2 =>
  (litP descriptorLit2 p2.2).bind fun p3 =>
  (litP p2.1 p3.2).bind fun p4 =>
  (litP descriptorLit3 p4.2).bind fun p5 =>
  (word1P p5.2).bind fun p6 =>
  (litP descriptorLit4 p6.2).map fun p7 =>
    ((p2.1, p6.1), p1.1 ++ p2.1 ++ p3.1 ++ p4.1 ++ p5.1 ++ p6.1 ++ p7.1, p7.2)

def availLit1 : Content := str "availableModels:\x7bname:\"AvailableModels\",I:"
def availLit2 : Content := str ".AvailableModelsRequest,O:"
def availLit3 : Content := str ".AvailableModelsResponse,kind:"

/-- `_RE_AVAILABLE_DESCRIPTOR` with captures `(prefix, kind_var)`. -/
def mAvailable : Matcher (Content × Content) := fun s =>
  (litP availLit1 s).bind fun p1 =>
  (word1P p1.2).bind fun p2 =>
  (litP availLit2 p2.2).bind fun p3 =>
  (litP p2.1 p3.2).bind fun p4 =>
  (litP availLit3 p4.2).bind fun p5 =>
  (word1P p5.2).bind fun p6 =>
  (litP descriptorLit4 p6.2).map fun p7 =>
    ((p2.1, p6.1), p1.1 ++ p2.1 ++ p3.1 ++ p4.1 ++ p5.1 ++ p6.1 ++ p7.1, p7.2)

theorem mDescriptor_sound : MatcherSound mDescriptor := by
  intro s a mt r h
  simp only [mDescriptor] at h
  cases h1 : litP descriptorLit1 s with
  | none => simp [h1] at h
  | some p1 =>
  simp only [h1, Option.some_bind] at h
  cases h2 : word1P p1.2 with
  | none => simp [h2] at h
  | some p2 =>
  simp only [h2, Option.some_bind] at h
  cases h3 : litP descriptorLit2 p2.2 with
  | none => simp [h3] at h
  | some p3 =>
  simp only [h3, Option.some_bind] at h
  cases h4 : litP p2.1 p3.2 with
  | none => simp [h4] at h
  | some p4 =>
  simp only [h4, Option.some_bind] at h
  cases h5 : litP descriptorLit3 p4.2 with
  | none => simp [h5] at h
  | some p5 =>
  simp only [h5, Option.some_bind] at h
  cases h6 : word1P p5.2 with
  | none => simp [h6] at h
  | some p6 =>
  simp only [h6, Option.some_bind] at h
  cases h7 : litP descriptorLit4 p6.2 with
  | none => simp [h7] at h
  | some p7 =>
  simp only [h7, Option.map_some] at h
  cases h
  have e1 := litP_sound _ _ _ _ h1
  have e2 := word1P_sound _ _ _ h2
  have e3 := litP_sound _ _ _ _ h3
  have e4 := litP_sound _ _ _ _ h4
  have e5 := litP_sound _ _ _ _ h5
  have e6 := word1P_sound _ _ _ h6
  have e7 := litP_sound _ _ _ _ h7
  simp only [List.append_assoc]
  rw [e7, e6, e5, e4, e3, e2, e1]

theorem mAvailable_sound : MatcherSound mAvailable := by
  intro s a mt r h
  simp only [mAvailable] at h
  cases h1 : litP availLit1 s with
  | none => simp [h1] at h
  | some p1 =>
  simp only [h1, Option.some_bind] at h
  cases h2 : word1P p1.2 with
  | none => simp [h2] at h
  | some p2 =>
  simp only [h2, Option.some_bind] at h
  cases h3 : litP availLit2 p2.2 with
  | none => simp [h3] at h
  | some p3 =>
  simp only [h3, Option.some_bind] at h
  cases h4 : litP p2.1 p3.2 with
  | none => simp [h4] at h
  | some p4 =>
  simp only [h4, Option.some_bind] at h
  cases h5 : litP availLit3 p4.2 with
  | none => simp [h5] at h
  | some p5 =>
  simp only [h5, Option.some_bind] at h
  cases h6 : word1P p5.2 with
  | none => simp [h6] at h
  | some p6 =>
  simp only [h6, Option.some_bind] at h
  cases h7 : litP descriptorLit4 p6.2 with
  | none => simp [h7] at h
  | some p7 =>
  simp only [h7, Option.map_some] at h
  cases h
  have e1 := litP_sound _ _ _ _ h1
  have e2 := word1P_sound _ _ _ h2
  have e3 := litP_sound _ _ _ _ h3
  have e4 := litP_sound _ _ _ _ h4
  have e5 := litP_sound _ _ _ _ h5
  have e6 := word1P_sound _ _ _ h6
  have e7 := litP_sound _ _ _ _ h7
  simp only [List.append_assoc]
  rw [e7, e6, e5, e4, e3, e2, e1]

/-- `_find_available_prefixes`: all `availableModels` descriptors as
`(start, prefix, kind_var)`. -/
def find_available_prefixes (content : Content) : List (Nat × Content × Content) :=
  (findScan mAvailable content.length 0 content).map fun t => (t.1, t.2.1.1, t.2.1.2)

/-- Distance between two character offsets (`abs(t[0] - pos)`). -/
def natDist (a b : Nat) : Nat := max a b - min a b

/-- `_find_nearest_available_prefix`: Python `min` keeps the first element
whose key is minimal, scanning left to right. -/
def find_nearest_available_prefix (pos : Nat)
    (available : List (Nat × Content × Content)) : Option (Content × Content) :=
  match available with
  | [] => none
  | a :: rest =>
    let best := rest.foldl (fun b t => if natDist t.1 pos < natDist b.1 pos then t else b) a
    some (best.2.1, best.2.2)

/-- `_make_replacement`. -/
def make_replacement (pfx kind_var : Content) : Content :=
  str "getUsableModels:\x7bname:\"AvailableModels\",I:" ++ pfx ++
    str ".AvailableModelsRequest,O:" ++ pfx ++
    str ".AvailableModelsResponse,kind:" ++ kind_var ++
    str ".MethodKind.Unary\x7d/* CGP_PATCH_MODELS_AVAILABLE */"

/-- The `replacer` closure inside `ModelsPatch.apply`: strategy 1 keeps the
site's own prefix when the original content has that prefix's
`AvailableModelsRequest`; strategy 2 borrows the nearest `availableModels`
descriptor's prefix; otherwise the site is echoed unchanged and the
`nonlocal total` counter is not incremented. -/
def replacer (content : Content) (available : List (Nat × Content × Content))
    (pos : Nat) (a : Content × Content) (mt : Content) : Content × Nat :=
  if occurs (a.1 ++ str ".AvailableModelsRequest") content then
    (make_replacement a.1 a.2, 1)
  else
    match find_nearest_available_prefix pos available with
    | some pk => (make_replacement pk.1 a.2, 1)
    | none => (mt, 0)

/-- `ModelsPatch.is_applicable`. -/
def is_applicable (content : Content) : Bool :=
  occurs (str "GetUsableModels") content && occurs (str "MethodKind") content

/-- `ModelsPatch.apply`. -/
def apply (content : Content) : Content × PatchResult :=
  if occurs marker content then
    (content, { already_patched := true })
  else if !is_applicable content then
    (content, { not_applicable := true })
  else
    let available := find_available_prefixes content
    let res := subScan mDescriptor (replacer content available) content.length 0 content
    if 0 < res.2 then
      (res.1, { applied := true, replacements := res.2,
                details := ["Replaced " ++ toString res.2 ++ " service descriptor(s)"] })
    else
      (res.1, { not_applicable := true,
                details := ["Descriptor pattern found but no safe replacements available"] })

end ModelsPatch

namespace AutoRunWorkbenchPatch

/-- `_MARKER` of `patches/autorun_workbench.py`. -/
def marker : Content := str "CGP_PATCH_AUTORUN_WORKBENCH"

/-- `_OLD_DEFAULT`. -/
def OLD_DEFAULT : Content := str "isAdminControlled:!1,isDisabledByAdmin:!0"

/-- `_NEW_DEFAULT`. -/
def NEW_DEFAULT : Content := str "isAdminControlled:!1,isDisabledByAdmin:!1"

/-- `_OLD_COMPUTED`. -/
def OLD_COMPUTED : Content :=
  str "isDisabledByAdmin:v.length+w.length===0&&!S&&k.length===0&&!D"

/-- `_NEW_COMPUTED`. -/
def NEW_COMPUTED : Content := str "isDisabledByAdmin:!1"

/-- `AutoRunWorkbenchPatch.is_applicable`. -/
def is_applicable (content : Content) : Bool :=
  occurs OLD_DEFAULT content || occurs OLD_COMPUTED content

/-- `AutoRunWorkbenchPatch.apply`. -/
def apply (content : Content) : Content × PatchResult :=
  if occurs marker content then
    (content, { already_patched := true })
  else if !is_applicable content then
    (content, { not_applicable := true })
  else
    let st1 :=
      if occurs OLD_DEFAULT content then
        (pyReplace content OLD_DEFAULT NEW_DEFAULT 1, 1,
          ["Patched isDisabledByAdmin default value"])
      else (content, 0, ([] : List String))
    let st2 :=
      if occurs OLD_COMPUTED st1.1 then
        (pyReplace st1.1 OLD_COMPUTED NEW_COMPUTED 1, 1,
          ["Patched isDisabledByAdmin computed value"])
      else (st1.1, 0, ([] : List String))
    let count := st1.2.1 + st2.2.1
    let details := st1.2.2 ++ st2.2.2
    if 0 < count then
      let c3 :=
        if occurs NEW_COMPUTED st2.1 then
          pyReplace st2.1 NEW_COMPUTED
            (NEW_COMPUTED ++ str "/* CGP_PATCH_AUTORUN_WORKBENCH */") 1
        else
          pyReplace st2.1 NEW_DEFAULT
            (NEW_DEFAULT ++ str "/* CGP_PATCH_AUTORUN_WORKBENCH */") 1
      (c3, { applied := true, replacements := count, details := details })
    else
      (st2.1, { not_applicable := true, details := details })

end AutoRunWorkbenchPatch

/-! ## Structure lemmas about `pyReplace` -/

theorem pyReplaceF_cnt_zero (old new : Content) (fuel : Nat) (s : Content) :
    pyReplaceF old new fuel 0 s = s := by
  cases fuel <;> cases s <;> rfl

theorem pyReplace_cnt_zero (s old new : Content) : pyReplace s old new 0 = s := by
  unfold pyReplace
  split
  · rfl
  · exact pyReplaceF_cnt_zero _ _ _ _

theorem pyReplaceF_found {old : Content} (new : Content) (hne : old ≠ []) :
    ∀ fuel s, s.length ≤ fuel → occurs old s = true →
      ∃ pre post, s = pre ++ old ++ post ∧
        pyReplaceF old new fuel 1 s = pre ++ new ++ post := by
  intro fuel
  induction fuel with
  | zero =>
    intro s hf h
    rw [List.length_eq_zero.mp (Nat.le_zero.mp hf)] at h
    simp only [occurs, List.isEmpty_iff] at h
    exact absurd h hne
  | succ fuel ih =>
    intro s hf h
    cases s with
    | nil =>
      simp only [occurs, List.isEmpty_iff] at h
      exact absurd h hne
    | cons c t =>
      by_cases hpre : old.isPrefixOf (c :: t)
      · obtain ⟨u, hu⟩ := List.isPrefixOf_iff_prefix.mp hpre
        refine ⟨[], (c :: t).drop old.length, ?_, ?_⟩
        · rw [List.nil_append, ← hu, List.drop_left]
        · simp only [pyReplaceF, if_pos hpre]
          rw [pyReplaceF_cnt_zero, List.nil_append, ← hu, List.drop_left]
      · have ht : occurs old t = true := by
          simp only [occurs, Bool.or_eq_true] at h
          rcases h with hp | hp
          · exact absurd hp hpre
          · exact hp
        have htf : t.length ≤ fuel := by
          simp only [List.length_cons] at hf
          omega
        obtain ⟨pre, post, hs, hr⟩ := ih t htf ht
        refine ⟨c :: pre, post, by simp [hs], ?_⟩
        simp only [pyReplaceF, if_neg hpre]
        rw [hr]
        rfl

/-- A count-1 replace on content containing `old` splits the content at the
first occurrence and replaces exactly it. -/
theorem pyReplace_found {s old : Content} (new : Content) (hne : old ≠ [])
    (h : occurs old s = true) :
    ∃ pre post, s = pre ++ old ++ post ∧ pyReplace s old new 1 = pre ++ new ++ post := by
  unfold pyReplace
  rw [if_neg hne]
  exact pyReplaceF_found new hne s.length s (Nat.le_refl _) h

theorem pySubnFixed_count_zero {p : Comp} (hp : CompSound p) (repl : Content)
    {s : Content} (h : (pySubnFixed p repl s).2 = 0) : (pySubnFixed p repl s).1 = s :=
  subScan_count_zero (compToMatcher_sound hp)
    (fun _ _ _ hz => absurd hz (by simp)) _ _ _ h

theorem pySubnFixed_count_pos {p : Comp} {repl target s : Content}
    (ht : occurs target repl = true) (h : 1 ≤ (pySubnFixed p repl s).2) :
    occurs target (pySubnFixed p repl s).1 = true :=
  subScan_count_pos_occurs (fun _ _ _ _ => ht) _ _ _ h

/-! ## Behavioural lemmas for the patch units -/

namespace AutoRunPatch

theorem apply_already_ar {c : Content} (h : occurs marker c = true) :
    apply c = (c, { already_patched := true }) := by
  simp [apply, h]

theorem marker_in_methodReplacement : occurs marker methodReplacement = true := by decide

theorem marker_in_callReplacement : occurs marker callReplacement = true := by decide

theorem apply_not_applied_id_ar {c : Content} (h : (apply c).2.applied = false) :
    (apply c).1 = c := by
  by_cases h1 : occurs marker c = true
  · simp [apply, h1]
  · by_cases h2 : is_applicable c = true
    · simp only [apply, h1, h2, Bool.not_true, if_false, Bool.false_eq_true,
        if_true] at h ⊢
      by_cases h3 : 0 <
          (pySubnFixed mMethodImpl methodReplacement c).2 +
          (pySubnFixed mCallSite callReplacement
            (pySubnFixed mMethodImpl methodReplacement c).1).2
      · rw [if_pos h3] at h
        simp at h
      · rw [if_neg h3]
        have hz1 : (pySubnFixed mMethodImpl methodReplacement c).2 = 0 := by omega
        have hz2 : (pySubnFixed mCallSite callReplacement
            (pySubnFixed mMethodImpl methodReplacement c).1).2 = 0 := by omega
        rw [pySubnFixed_count_zero mCallSite_sound _ hz2,
          pySubnFixed_count_zero mMethodImpl_sound _ hz1]
    · simp [apply, h1, h2]

theorem apply_applied_marker_ar {c : Content} (h : (apply c).2.applied = true) :
    occurs marker (apply c).1 = true := by
  by_cases h1 : occurs marker c = true
  · rw [apply_already_ar h1]
    exact h1
  · by_cases h2 : is_applicable c = true
    · simp only [apply, h1, h2, Bool.not_true, if_false, Bool.false_eq_true,
        if_true] at h ⊢
      by_cases h3 : 0 <
          (pySubnFixed mMethodImpl methodReplacement c).2 +
          (pySubnFixed mCallSite callReplacement
            (pySubnFixed mMethodImpl methodReplacement c).1).2
      · rw [if_pos h3]
        rcases Nat.lt_or_ge 0 (pySubnFixed mCallSite callReplacement
            (pySubnFixed mMethodImpl methodReplacement c).1).2 with hp | hp
        · exact pySubnFixed_count_pos marker_in_callReplacement hp
        · have hz2 : (pySubnFixed mCallSite callReplacement
              (pySubnFixed mMethodImpl methodReplacement c).1).2 = 0 := by omega
          rw [pySubnFixed_count_zero mCallSite_sound _ hz2]
          exact pySubnFixed_count_pos marker_in_methodReplacement (by omega)
      · rw [if_neg h3] at h
        simp at h
    · simp [apply, h1, h2] at h

end AutoRunPatch

namespace ModelsPatch

theorem apply_already_m {c : Content} (h : occurs marker c = true) :
    apply c = (c, { already_patched := true }) := by
  simp [apply, h]

theorem marker_in_make_replacement (pfx kind_var : Content) :
    occurs marker (make_replacement pfx kind_var) = true := by
  unfold make_replacement
  simp only [List.append_assoc]
  apply occurs_append_right
  apply occurs_append_right
  apply occurs_append_right
  apply occurs_append_right
  apply occurs_append_right
  apply occurs_append_right
  decide

theorem replacer_zero {content : Content} {available : List (Nat × Content × Content)}
    {pos : Nat} {a : Content × Content} {mt : Content}
    (h : (replacer content available pos a mt).2 = 0) :
    (replacer content available pos a mt).1 = mt := by
  unfold replacer at h ⊢
  by_cases hc : occurs (a.1 ++ str ".AvailableModelsRequest") content = true
  · rw [if_pos hc] at h
    simp at h
  · rw [if_neg hc] at h ⊢
    cases hn : find_nearest_available_prefix pos available with
    | some pk => rw [hn] at h; simp at h
    | none => rfl

theorem replacer_pos {content : Content} {available : List (Nat × Content × Content)}
    {pos : Nat} {a : Content × Content} {mt : Content}
    (h : 1 ≤ (replacer content available pos a mt).2) :
    occurs marker (replacer content available pos a mt).1 = true := by
  unfold replacer at h ⊢
  by_cases hc : occurs (a.1 ++ str ".AvailableModelsRequest") content = true
  · rw [if_pos hc]
    exact marker_in_make_replacement _ _
  · rw [if_neg hc] at h ⊢
    cases hn : find_nearest_available_prefix pos available with
    | some pk => exact marker_in_make_replacement _ _
    | none => rw [hn] at h; simp at h

theorem apply_not_applied_id_m {c : Content} (h : (apply c).2.applied = false) :
    (apply c).1 = c := by
  by_cases h1 : occurs marker c = true
  · simp [apply, h1]
  · by_cases h2 : is_applicable c = true
    · simp only [apply, h1, h2, Bool.not_true, if_false, Bool.false_eq_true,
        if_true] at h ⊢
      split at h
      · simp at h
      · rename_i h3
        rw [if_neg h3]
        exact subScan_count_zero mDescriptor_sound
          (fun _ _ _ hz => replacer_zero hz) _ _ _ (Nat.le_zero.mp (Nat.not_lt.mp h3))
    · simp [apply, h1, h2]

theorem apply_applied_marker_m {c : Content} (h : (apply c).2.applied = true) :
    occurs marker (apply c).1 = true := by
  by_cases h1 : occurs marker c = true
  · rw [apply_already_m h1]
    exact h1
  · by_cases h2 : is_applicable c = true
    · simp only [apply, h1, h2, Bool.not_true, if_false, Bool.false_eq_true,
        if_true] at h ⊢
      split at h
      · rename_i h3
        rw [if_pos h3]
        exact subScan_count_pos_occurs (fun _ _ _ hp => replacer_pos hp) _ _ _ h3
      · simp at h
    · simp [apply, h1, h2] at h

end ModelsPatch

namespace AutoRunWorkbenchPatch

/-- The injected marker comment. -/
def markerComment : Content := str "/* CGP_PATCH_AUTORUN_WORKBENCH */"

theorem apply_already_wb {c : Content} (h : occurs marker c = true) :
    apply c = (c, { already_patched := true }) := by
  simp [apply, h]

theorem marker_in_markerComment : occurs marker markerComment = true := by decide

theorem new_computed_in_new_default : occurs NEW_COMPUTED NEW_DEFAULT = true := by decide

theorem old_default_ne_nil : OLD_DEFAULT ≠ [] := by decide

theorem old_computed_ne_nil : OLD_COMPUTED ≠ [] := by decide

theorem new_computed_ne_nil : NEW_COMPUTED ≠ [] := by decide

theorem marker_in_comment :
    occurs marker (str "/* CGP_PATCH_AUTORUN_WORKBENCH */") = true := by decide

/-- After `if_pos` on the marker-injection condition: the injected
replacement carries the marker. -/
theorem marker_after_inject {x : Content} (hx : occurs NEW_COMPUTED x = true) :
    occurs marker
      (pyReplace x NEW_COMPUTED
        (NEW_COMPUTED ++ str "/* CGP_PATCH_AUTORUN_WORKBENCH */") 1) = true := by
  obtain ⟨pre, post, _, hr⟩ := pyReplace_found
    (NEW_COMPUTED ++ str "/* CGP_PATCH_AUTORUN_WORKBENCH */")
    new_computed_ne_nil hx
  rw [hr]
  exact occurs_of_infix_of_occurs
    (occurs_append_right NEW_COMPUTED marker_in_comment)
    (occurs_middle pre post _)

theorem apply_not_applied_id_wb {c : Content} (h : (apply c).2.applied = false) :
    (apply c).1 = c := by
  by_cases h1 : occurs marker c = true
  · simp [apply, h1]
  · by_cases h2 : is_applicable c = true
    · by_cases hd : occurs OLD_DEFAULT c = true
      · exfalso
        simp only [apply, h1, h2, hd, Bool.not_true, if_false,
          Bool.false_eq_true, if_true] at h
        repeat' split at h
        all_goals first
          | omega
          | simp at h
      · by_cases hcmp : occurs OLD_COMPUTED c = true
        · exfalso
          simp only [apply, h1, h2, hd, hcmp, Bool.not_true, if_false,
            Bool.false_eq_true, if_true] at h
          repeat' split at h
          all_goals first
            | omega
            | simp at h
        · simp [apply, h1, h2, hd, hcmp]
    · simp [apply, h1, h2]

theorem apply_applied_marker_wb {c : Content} (h : (apply c).2.applied = true) :
    occurs marker (apply c).1 = true := by
  by_cases h1 : occurs marker c = true
  · rw [apply_already_wb h1]
    exact h1
  · by_cases h2 : is_applicable c = true
    · by_cases hd : occurs OLD_DEFAULT c = true
      · by_cases hcmp :
            occurs OLD_COMPUTED (pyReplace c OLD_DEFAULT NEW_DEFAULT 1) = true
        · have hB : occurs NEW_COMPUTED
              (pyReplace (pyReplace c OLD_DEFAULT NEW_DEFAULT 1)
                OLD_COMPUTED NEW_COMPUTED 1) = true := by
            obtain ⟨pre, post, _, hr⟩ :=
              pyReplace_found NEW_COMPUTED old_computed_ne_nil hcmp
            rw [hr]
            exact occurs_middle pre post _
          simp [apply, h1, h2, hd, hcmp, hB]
          exact marker_after_inject hB
        · have hA : occurs NEW_COMPUTED (pyReplace c OLD_DEFAULT NEW_DEFAULT 1) = true := by
            obtain ⟨pre, post, _, hr⟩ :=
              pyReplace_found NEW_DEFAULT old_default_ne_nil hd
            rw [hr]
            exact occurs_of_infix_of_occurs new_computed_in_new_default
              (occurs_middle pre post _)
          simp [apply, h1, h2, hd, hcmp, hA]
          exact marker_after_inject hA
      · by_cases hcmp : occurs OLD_COMPUTED c = true
        · have hB : occurs NEW_COMPUTED (pyReplace c OLD_COMPUTED NEW_COMPUTED 1) = true := by
            obtain ⟨pre, post, _, hr⟩ :=
              pyReplace_found NEW_COMPUTED old_computed_ne_nil hcmp
            rw [hr]
            exact occurs_middle pre post _
          simp [apply, h1, h2, hd, hcmp, hB]
          exact marker_after_inject hB
        · simp [apply, h1, h2, hd, hcmp] at h
    · simp [apply, h1, h2] at h

end AutoRunWorkbenchPatch

/-! ## Outcome-shape lemmas shared by the patch units -/

theorem autorun_already_imp_marker {c : Content}
    (h : (AutoRunPatch.apply c).2.already_patched = true) :
    occurs AutoRunPatch.marker (AutoRunPatch.apply c).1 = true := by
  by_cases h1 : occurs AutoRunPatch.marker c = true
  · rw [AutoRunPatch.apply_already_ar h1]
    exact h1
  · exfalso
    simp only [AutoRunPatch.apply, h1, Bool.false_eq_true, if_false] at h
    repeat' split at h
    all_goals simp at h

theorem models_already_imp_marker {c : Content}
    (h : (ModelsPatch.apply c).2.already_patched = true) :
    occurs ModelsPatch.marker (ModelsPatch.apply c).1 = true := by
  by_cases h1 : occurs ModelsPatch.marker c = true
  · rw [ModelsPatch.apply_already_m h1]
    exact h1
  · exfalso
    simp only [ModelsPatch.apply, h1, Bool.false_eq_true, if_false] at h
    repeat' split at h
    all_goals simp at h

theorem workbench_already_imp_marker {c : Content}
    (h : (AutoRunWorkbenchPatch.apply c).2.already_patched = true) :
    occurs AutoRunWorkbenchPatch.marker (AutoRunWorkbenchPatch.apply c).1 = true := by
  by_cases h1 : occurs AutoRunWorkbenchPatch.marker c = true
  · rw [AutoRunWorkbenchPatch.apply_already_wb h1]
    exact h1
  · exfalso
    simp only [AutoRunWorkbenchPatch.apply, h1, Bool.false_eq_true, if_false] at h
    repeat' split at h
    all_goals simp at h

/-- The outcome invariant, per unit: `applied` and `already_patched` are never
both set, and when neither is set `not_applicable` is set. -/
def OutcomeInvariant (r : PatchResult) : Prop :=
  ¬(r.applied = true ∧ r.already_patched = true) ∧
    (r.applied = false ∧ r.already_patched = false → r.not_applicable = true)

theorem autorun_outcome_invariant (c : Content) :
    OutcomeInvariant (AutoRunPatch.apply c).2 := by
  unfold OutcomeInvariant
  simp only [AutoRunPatch.apply]
  repeat' split
  all_goals simp

theorem models_outcome_invariant (c : Content) :
    OutcomeInvariant (ModelsPatch.apply c).2 := by
  unfold OutcomeInvariant
  simp only [ModelsPatch.apply]
  repeat' split
  all_goals simp

theorem workbench_outcome_invariant (c : Content) :
    OutcomeInvariant (AutoRunWorkbenchPatch.apply c).2 := by
  unfold OutcomeInvariant
  simp only [AutoRunWorkbenchPatch.apply]
  repeat' split
  all_goals simp

/-! ## Claim theorems: patch-unit claims -/

/-- C3: for every concrete Patch Unit (AutoRunPatch, ModelsPatch,
AutoRunWorkbenchPatch) and every input content, the `PatchResult` returned
by `apply` has at most one of `applied` / `already_patched` set, and when
neither is set `not_applicable` is set. -/
theorem C3_outcome_flags_invariant (c : Content) :
    OutcomeInvariant (AutoRunPatch.apply c).2 ∧
    OutcomeInvariant (ModelsPatch.apply c).2 ∧
    OutcomeInvariant (AutoRunWorkbenchPatch.apply c).2 :=
  ⟨autorun_outcome_invariant c, models_outcome_invariant c,
    workbench_outcome_invariant c⟩

theorem C3_outcome_flags_invariant_witness :
    (AutoRunPatch.apply (str "x")).2.not_applicable = true :=
  ((C3_outcome_flags_invariant (str "x")).1).2 (by decide)

/-- C2 counterexample: on empty content the first application reports
`not_applicable`, so the second application reports `already_patched = false`,
falsifying `apply(apply(x).content).outcome.already_patched == true` as a
statement over every input content. -/
theorem C2_counterexample :
    (AutoRunPatch.apply (AutoRunPatch.apply (str "")).1).2.already_patched = false := by
  decide

/-- C2 (amended): for every concrete Patch Unit and input content, applying
the unit a second time to the first application's output returns that output
unchanged; and whenever the first application reported `applied` or
`already_patched`, the second application reports `already_patched = true`. -/
theorem C2_amended_idempotence (c : Content) :
    ((AutoRunPatch.apply (AutoRunPatch.apply c).1).1 = (AutoRunPatch.apply c).1 ∧
      ((AutoRunPatch.apply c).2.applied = true ∨
        (AutoRunPatch.apply c).2.already_patched = true →
        (AutoRunPatch.apply (AutoRunPatch.apply c).1).2.already_patched = true)) ∧
    ((ModelsPatch.apply (ModelsPatch.apply c).1).1 = (ModelsPatch.apply c).1 ∧
      ((ModelsPatch.apply c).2.applied = true ∨
        (ModelsPatch.apply c).2.already_patched = true →
        (ModelsPatch.apply (ModelsPatch.apply c).1).2.already_patched = true)) ∧
    ((AutoRunWorkbenchPatch.apply (AutoRunWorkbenchPatch.apply c).1).1 =
        (AutoRunWorkbenchPatch.apply c).1 ∧
      ((AutoRunWorkbenchPatch.apply c).2.applied = true ∨
        (AutoRunWorkbenchPatch.apply c).2.already_patched = true →
        (AutoRunWorkbenchPatch.apply (AutoRunWorkbenchPatch.apply c).1).2.already_patched
          = true)) := by
  refine ⟨⟨?_, ?_⟩, ⟨?_, ?_⟩, ⟨?_, ?_⟩⟩
  · by_cases ha : (AutoRunPatch.apply c).2.applied = true
    · rw [AutoRunPatch.apply_already_ar (AutoRunPatch.apply_applied_marker_ar ha)]
    · have hid := AutoRunPatch.apply_not_applied_id_ar (by simpa using ha)
      rw [hid]
      exact hid
  · intro h
    have hm : occurs AutoRunPatch.marker (AutoRunPatch.apply c).1 = true :=
      h.elim AutoRunPatch.apply_applied_marker_ar autorun_already_imp_marker
    rw [AutoRunPatch.apply_already_ar hm]
  · by_cases ha : (ModelsPatch.apply c).2.applied = true
    · rw [ModelsPatch.apply_already_m (ModelsPatch.apply_applied_marker_m ha)]
    · have hid := ModelsPatch.apply_not_applied_id_m (by simpa using ha)
      rw [hid]
      exact hid
  · intro h
    have hm : occurs ModelsPatch.marker (ModelsPatch.apply c).1 = true :=
      h.elim ModelsPatch.apply_applied_marker_m models_already_imp_marker
    rw [ModelsPatch.apply_already_m hm]
  · by_cases ha : (AutoRunWorkbenchPatch.apply c).2.applied = true
    · rw [AutoRunWorkbenchPatch.apply_already_wb
        (AutoRunWorkbenchPatch.apply_applied_marker_wb ha)]
    · have hid := AutoRunWorkbenchPatch.apply_not_applied_id_wb (by simpa using ha)
      rw [hid]
      exact hid
  · intro h
    have hm : occurs AutoRunWorkbenchPatch.marker (AutoRunWorkbenchPatch.apply c).1
        = true :=
      h.elim AutoRunWorkbenchPatch.apply_applied_marker_wb workbench_already_imp_marker
    rw [AutoRunWorkbenchPatch.apply_already_wb hm]

theorem C2_amended_idempotence_witness :
    (AutoRunWorkbenchPatch.apply
      (AutoRunWorkbenchPatch.apply AutoRunWorkbenchPatch.OLD_COMPUTED).1).2.already_patched
      = true :=
  ((C2_amended_idempotence AutoRunWorkbenchPatch.OLD_COMPUTED).2.2).2 (by decide)

/-- C8 counterexample: `AutoRunWorkbenchPatch.apply` on content equal to the
computed-value literal shrinks the content (61 chars → 53 chars), falsifying
output length ≥ input length. -/
theorem C8_counterexample :
    ¬((AutoRunWorkbenchPatch.apply AutoRunWorkbenchPatch.OLD_COMPUTED).1.length ≥
      AutoRunWorkbenchPatch.OLD_COMPUTED.length) := by
  decide

/-- C8 (amended): for AutoRunPatch and AutoRunWorkbenchPatch, when `apply`
does not report `applied` the content is returned unchanged, so the output
length equals the input length; when a replacement is applied the output can
be shorter than the input (the method-implementation and computed-value
replacements are shorter than the text they replace), so output length ≥
input length does not hold in general. -/
theorem C8_amended_length (c : Content) :
    ((AutoRunPatch.apply c).2.applied = false →
      (AutoRunPatch.apply c).1.length = c.length) ∧
    ((AutoRunWorkbenchPatch.apply c).2.applied = false →
      (AutoRunWorkbenchPatch.apply c).1.length = c.length) :=
  ⟨fun h => by rw [AutoRunPatch.apply_not_applied_id_ar h],
    fun h => by rw [AutoRunWorkbenchPatch.apply_not_applied_id_wb h]⟩

theorem C8_amended_length_witness :
    (AutoRunPatch.apply (str "")).1.length = (str "").length :=
  (C8_amended_length (str "")).1 (by decide)

/-- The duplicated-literal demonstration content for C10. -/
def c10_input : Content :=
  AutoRunWorkbenchPatch.OLD_DEFAULT ++ str ";" ++
    AutoRunWorkbenchPatch.OLD_COMPUTED ++ str ";" ++
    AutoRunWorkbenchPatch.OLD_DEFAULT ++ str ";" ++
    AutoRunWorkbenchPatch.OLD_COMPUTED

set_option maxRecDepth 20000 in
/-- C10: `AutoRunWorkbenchPatch.apply` replaces at most the first occurrence
of each of its two target literals: the replacement count is always at most
2, and on content holding each literal twice only the first occurrences are
rewritten — the second occurrence of each literal survives verbatim in the
output, which is computed exactly. -/
theorem C10_workbench_first_occurrence_only :
    (∀ c : Content, (AutoRunWorkbenchPatch.apply c).2.replacements ≤ 2) ∧
    (AutoRunWorkbenchPatch.apply c10_input).1 =
      AutoRunWorkbenchPatch.NEW_DEFAULT ++ str "/* CGP_PATCH_AUTORUN_WORKBENCH */;" ++
        AutoRunWorkbenchPatch.NEW_COMPUTED ++ str ";" ++
        AutoRunWorkbenchPatch.OLD_DEFAULT ++ str ";" ++
        AutoRunWorkbenchPatch.OLD_COMPUTED ∧
    (AutoRunWorkbenchPatch.apply c10_input).2.replacements = 2 ∧
    occurs AutoRunWorkbenchPatch.OLD_DEFAULT
      (AutoRunWorkbenchPatch.apply c10_input).1 = true ∧
    occurs AutoRunWorkbenchPatch.OLD_COMPUTED
      (AutoRunWorkbenchPatch.apply c10_input).1 = true := by
  refine ⟨fun c => ?_, by decide, by decide, by decide, by decide⟩
  simp only [AutoRunWorkbenchPatch.apply]
  repeat' split
  all_goals simp

/-! ## C4: finditer-and-splice description of a scanning substitution -/

/-- Splice a list of `(start, matchedText, replacement)` records into
content, `pos` being the offset of the content's head. -/
def spliceSites : List (Nat × Content × Content) → Nat → Content → Content
  | [], _, s => s
  | (st, mt, rp) :: rest, pos, s =>
    List.take (st - pos) s ++ rp ++
      spliceSites rest (st + mt.length) (List.drop (st - pos + mt.length) s)

theorem findScan_pos_le {α : Type} (m : Matcher α) :
    ∀ fuel pos s, ∀ t ∈ findScan m fuel pos s, pos ≤ t.1 := by
  intro fuel
  induction fuel with
  | zero => intro pos s t ht; simp [findScan] at ht
  | succ fuel ih =>
    intro pos s t ht
    cases s with
    | nil => simp [findScan] at ht
    | cons c cs =>
      simp only [findScan] at ht
      cases hms : m (c :: cs) with
      | some v =>
        obtain ⟨a, mt, rest⟩ := v
        rw [hms] at ht
        rcases List.mem_cons.mp ht with h | h
        · subst h; exact Nat.le_refl _
        · exact Nat.le_trans (Nat.le_add_right _ _) (ih _ _ _ h)
      | none =>
        rw [hms] at ht
        exact Nat.le_trans (Nat.le_succ _) (ih (pos + 1) cs t ht)

theorem spliceSites_cons_skip {L : List (Nat × Content × Content)} {pos : Nat}
    {c : Char} {t : Content} (hL : ∀ x ∈ L, pos + 1 ≤ x.1) :
    spliceSites L pos (c :: t) = c :: spliceSites L (pos + 1) t := by
  cases L with
  | nil => rfl
  | cons x rest =>
    obtain ⟨st, mt, rp⟩ := x
    have hx : pos + 1 ≤ st := hL (st, mt, rp) (List.mem_cons_self _ _)
    obtain ⟨k, hk⟩ : ∃ k, st - pos = k + 1 := ⟨st - pos - 1, by omega⟩
    have hk2 : st - (pos + 1) = k := by omega
    simp only [spliceSites, hk, hk2, List.take_succ_cons]
    have hd : k + 1 + mt.length = (k + mt.length) + 1 := by omega
    rw [hd, List.drop_succ_cons]
    simp

theorem subScan_eq_spliceSites {α : Type} {m : Matcher α} (hm : MatcherSound m)
    (rep : Nat → α → Content → Content × Nat) :
    ∀ fuel pos s, (subScan m rep fuel pos s).1 =
      spliceSites
        ((findScan m fuel pos s).map fun t => (t.1, t.2.2, (rep t.1 t.2.1 t.2.2).1))
        pos s := by
  intro fuel
  induction fuel with
  | zero => intro pos s; rfl
  | succ fuel ih =>
    intro pos s
    cases s with
    | nil => simp [subScan, findScan, spliceSites]
    | cons c t =>
      simp only [subScan, findScan]
      cases hms : m (c :: t) with
      | some v =>
        obtain ⟨a, mt, rest⟩ := v
        simp only [List.map_cons, spliceSites, Nat.sub_self, List.take_zero,
          List.nil_append, Nat.zero_add]
        have hdrop : (c :: t).drop mt.length = rest := by
          rw [← hm _ _ _ _ hms]
          exact List.drop_left mt rest
        rw [hdrop, ih]
      | none =>
        rw [ih (pos + 1) t]
        rw [spliceSites_cons_skip]
        intro x hx
        obtain ⟨y, hy, hxy⟩ := List.mem_map.mp hx
        subst hxy
        simpa using findScan_pos_le m fuel (pos + 1) t y hy

theorem subScan_count_eq_sum {α : Type} {m : Matcher α}
    (rep : Nat → α → Content → Content × Nat) :
    ∀ fuel pos s, (subScan m rep fuel pos s).2 =
      (findScan m fuel pos s).foldr (fun t acc => (rep t.1 t.2.1 t.2.2).2 + acc) 0 := by
  intro fuel
  induction fuel with
  | zero => intro pos s; rfl
  | succ fuel ih =>
    intro pos s
    cases s with
    | nil => rfl
    | cons c t =>
      simp only [subScan, findScan]
      cases hms : m (c :: t) with
      | some v =>
        obtain ⟨a, mt, rest⟩ := v
        simp only [List.foldr_cons]
        rw [ih]
        omega
      | none => exact ih _ _

/-- Every `finditer` record's matched text was produced by the matcher on a
suffix of the scanned content. -/
theorem findScan_exists_match {α : Type} {m : Matcher α} (hm : MatcherSound m) :
    ∀ fuel pos s, ∀ t ∈ findScan m fuel pos s,
      ∃ s' rest, List.IsSuffix s' s ∧ m s' = some (t.2.1, t.2.2, rest) := by
  intro fuel
  induction fuel with
  | zero => intro pos s t ht; simp [findScan] at ht
  | succ fuel ih =>
    intro pos s t ht
    cases s with
    | nil => simp [findScan] at ht
    | cons c cs =>
      simp only [findScan] at ht
      cases hms : m (c :: cs) with
      | some v =>
        obtain ⟨a, mt, rest⟩ := v
        rw [hms] at ht
        rcases List.mem_cons.mp ht with h | h
        · exact ⟨c :: cs, rest, List.suffix_refl _, by rw [hms, h]⟩
        · obtain ⟨s', r', hs', hm'⟩ := ih _ _ _ h
          refine ⟨s', r', ?_, hm'⟩
          have hrest : List.IsSuffix rest (c :: cs) := by
            refine ⟨mt, hm _ _ _ _ hms⟩
          exact hs'.trans hrest
      | none =>
        rw [hms] at ht
        obtain ⟨s', r', hs', hm'⟩ := ih _ _ _ ht
        exact ⟨s', r', hs'.trans (List.suffix_cons c cs), hm'⟩

theorem litP_matched {lit s m r : Content} (h : litP lit s = some (m, r)) : m = lit := by
  simp only [litP] at h
  split at h
  · cases h; rfl
  · exact absurd h (by simp)

namespace ModelsPatch

/-- The matched text of a descriptor match contains the two applicability
substrings (it starts with `descriptorLit1` and ends with `descriptorLit4`). -/
theorem mDescriptor_match_strings {s : Content} {a : Content × Content} {mt r : Content}
    (h : mDescriptor s = some (a, mt, r)) :
    occurs (str "GetUsableModels") mt = true ∧ occurs (str "MethodKind") mt = true := by
  simp only [mDescriptor] at h
  cases h1 : litP descriptorLit1 s with
  | none => simp [h1] at h
  | some p1 =>
  simp only [h1, Option.some_bind] at h
  cases h2 : word1P p1.2 with
  | none => simp [h2] at h
  | some p2 =>
  simp only [h2, Option.some_bind] at h
  cases h3 : litP descriptorLit2 p2.2 with
  | none => simp [h3] at h
  | some p3 =>
  simp only [h3, Option.some_bind] at h
  cases h4 : litP p2.1 p3.2 with
  | none => simp [h4] at h
  | some p4 =>
  simp only [h4, Option.some_bind] at h
  cases h5 : litP descriptorLit3 p4.2 with
  | none => simp [h5] at h
  | some p5 =>
  simp only [h5, Option.some_bind] at h
  cases h6 : word1P p5.2 with
  | none => simp [h6] at h
  | some p6 =>
  simp only [h6, Option.some_bind] at h
  cases h7 : litP descriptorLit4 p6.2 with
  | none => simp [h7] at h
  | some p7 =>
  simp only [h7, Option.map_some] at h
  cases h
  constructor
  · rw [litP_matched h1]
    simp only [List.append_assoc]
    apply occurs_append_left
    decide
  · rw [litP_matched h7]
    simp only [List.append_assoc]
    apply occurs_append_right
    apply occurs_append_right
    apply occurs_append_right
    apply occurs_append_right
    apply occurs_append_right
    apply occurs_append_right
    decide

/-- The descriptor sites of the content, by `re.finditer`:
`(start, (prefix, kind_var), matched text)`. -/
def descriptor_sites (content : Content) : List (Nat × (Content × Content) × Content) :=
  findScan mDescriptor content.length 0 content

/-- If any descriptor site exists, `is_applicable` holds. -/
theorem descriptor_sites_applicable {content : Content}
    (h : descriptor_sites content ≠ []) : is_applicable content = true := by
  obtain ⟨t, ht⟩ := List.exists_mem_of_ne_nil _ h
  obtain ⟨s', rest, hsuf, hmatch⟩ :=
    findScan_exists_match mDescriptor_sound content.length 0 content t ht
  have hsound := mDescriptor_sound _ _ _ _ hmatch
  obtain ⟨hg, hk⟩ := mDescriptor_match_strings hmatch
  have hmt : occurs t.2.2 content = true := by
    rw [occurs_infix_iff]
    exact List.IsInfix.trans ⟨[], rest, by simpa using hsound⟩ hsuf.isInfix
  unfold is_applicable
  rw [occurs_of_infix_of_occurs hg hmt, occurs_of_infix_of_occurs hk hmt]
  rfl

/-- Modelled from the claim's words: the text a single `getUsableModels`
site is rewritten to — (i) keep the site's own prefix when its
`AvailableModelsRequest` is available in the original content, (ii)
otherwise use the prefix of the `availableModels` descriptor nearest by
absolute character-offset distance, (iii) if no `availableModels`
descriptor exists, leave the site textually unchanged. -/
def spec_site_text (content : Content) (available : List (Nat × Content × Content))
    (site : Nat × (Content × Content) × Content) : Content :=
  if occurs (site.2.1.1 ++ str ".AvailableModelsRequest") content then
    make_replacement site.2.1.1 site.2.1.2
  else
    match find_nearest_available_prefix site.1 available with
    | some pk => make_replacement pk.1 site.2.1.2
    | none => site.2.2

/-- Modelled from the claim's words: 1 when the site is rewritten, 0 when it
is left unchanged (unchanged sites do not count toward replacements). -/
def spec_site_count (content : Content) (available : List (Nat × Content × Content))
    (site : Nat × (Content × Content) × Content) : Nat :=
  if occurs (site.2.1.1 ++ str ".AvailableModelsRequest") content then 1
  else
    match find_nearest_available_prefix site.1 available with
    | some _ => 1
    | none => 0

/-- Spec-side replacement total over all sites. -/
def spec_total (content : Content) : Nat :=
  (descriptor_sites content).foldr
    (fun t acc => spec_site_count content (find_available_prefixes content) t + acc) 0

/-- Spec-side output: every site spliced with its described rewrite. -/
def spec_output (content : Content) : Content :=
  spliceSites
    ((descriptor_sites content).map
      (fun t => (t.1, t.2.2, spec_site_text content (find_available_prefixes content) t)))
    0 content

theorem replacer_fst_eq_spec_text (content : Content)
    (available : List (Nat × Content × Content)) (pos : Nat)
    (a : Content × Content) (mt : Content) :
    (replacer content available pos a mt).1 =
      spec_site_text content available (pos, a, mt) := by
  unfold replacer spec_site_text
  split
  · rfl
  · cases find_nearest_available_prefix pos available <;> rfl

theorem replacer_snd_eq_spec_count (content : Content)
    (available : List (Nat × Content × Content)) (pos : Nat)
    (a : Content × Content) (mt : Content) :
    (replacer content available pos a mt).2 =
      spec_site_count content available (pos, a, mt) := by
  unfold replacer spec_site_count
  split
  · rfl
  · cases find_nearest_available_prefix pos available <;> rfl

end ModelsPatch

/-- C4: for every content without the models marker, `ModelsPatch.apply`
rewrites each `getUsableModels` descriptor site as described: (i) with the
site's own prefix when that prefix's `AvailableModelsRequest` occurs in the
original content, (ii) otherwise with the prefix of the `availableModels`
descriptor whose start offset is nearest by absolute character-offset
distance, (iii) textually unchanged when no `availableModels` descriptor
exists; unchanged sites do not count toward `replacements`, and zero
rewritten sites yield `not_applicable`, not `applied`. -/
theorem C4_models_prefix_resolution (content : Content)
    (hm : occurs ModelsPatch.marker content = false) :
    (ModelsPatch.apply content).1 = ModelsPatch.spec_output content ∧
    (ModelsPatch.apply content).2.replacements = ModelsPatch.spec_total content ∧
    (ModelsPatch.spec_total content = 0 →
      (ModelsPatch.apply content).2.not_applicable = true ∧
      (ModelsPatch.apply content).2.applied = false) := by
  have hout : (subScan ModelsPatch.mDescriptor
      (ModelsPatch.replacer content (ModelsPatch.find_available_prefixes content))
      content.length 0 content).1 = ModelsPatch.spec_output content := by
    rw [subScan_eq_spliceSites ModelsPatch.mDescriptor_sound]
    unfold ModelsPatch.spec_output ModelsPatch.descriptor_sites
    have hfun : (fun t : Nat × (Content × Content) × Content =>
        (t.1, t.2.2, (ModelsPatch.replacer content
          (ModelsPatch.find_available_prefixes content) t.1 t.2.1 t.2.2).1)) =
        (fun t => (t.1, t.2.2, ModelsPatch.spec_site_text content
          (ModelsPatch.find_available_prefixes content) t)) := by
      funext t
      rw [ModelsPatch.replacer_fst_eq_spec_text]
    rw [hfun]
  have hcnt : (subScan ModelsPatch.mDescriptor
      (ModelsPatch.replacer content (ModelsPatch.find_available_prefixes content))
      content.length 0 content).2 = ModelsPatch.spec_total content := by
    rw [subScan_count_eq_sum]
    unfold ModelsPatch.spec_total ModelsPatch.descriptor_sites
    have hfun : (fun (t : Nat × (Content × Content) × Content) (acc : Nat) =>
        (ModelsPatch.replacer content
          (ModelsPatch.find_available_prefixes content) t.1 t.2.1 t.2.2).2 + acc) =
        (fun t acc => ModelsPatch.spec_site_count content
          (ModelsPatch.find_available_prefixes content) t + acc) := by
      funext t acc
      rw [ModelsPatch.replacer_snd_eq_spec_count]
    rw [hfun]
  by_cases h2 : ModelsPatch.is_applicable content = true
  · simp only [ModelsPatch.apply, hm, Bool.false_eq_true, if_false, h2,
      Bool.not_true, if_true]
    split
    · rename_i h3
      refine ⟨hout, ?_, fun h0 => ?_⟩
      · simpa using hcnt
      · exfalso
        rw [h0] at hcnt
        omega
    · rename_i h3
      refine ⟨hout, ?_, fun _ => ?_⟩
      · have h4 : (0 : Nat) = ModelsPatch.spec_total content := by omega
        simpa using h4
      · simp
  · have hb : ModelsPatch.is_applicable content = false := by
      simpa using h2
    have hsites : ModelsPatch.descriptor_sites content = [] := by
      by_contra hne
      exact h2 (ModelsPatch.descriptor_sites_applicable hne)
    simp only [ModelsPatch.apply, hm, Bool.false_eq_true, if_false, hb,
      Bool.not_false, if_true]
    refine ⟨?_, ?_, fun _ => by simp⟩
    · unfold ModelsPatch.spec_output
      rw [hsites]
      rfl
    · unfold ModelsPatch.spec_total
      rw [hsites]
      rfl

/-- Demonstration content for the C4 witness: one `availableModels`
descriptor with prefix `r`, one `getUsableModels` site with prefix `r`
(strategy (i)) and one with prefix `f` (strategy (ii)). -/
def c4_demo : Content :=
  str "availableModels:\x7bname:\"AvailableModels\",I:r.AvailableModelsRequest,O:r.AvailableModelsResponse,kind:s.MethodKind.Unary\x7d,getUsableModels:\x7bname:\"GetUsableModels\",I:r.GetUsableModelsRequest,O:r.GetUsableModelsResponse,kind:s.MethodKind.Unary\x7d,getUsableModels:\x7bname:\"GetUsableModels\",I:f.GetUsableModelsRequest,O:f.GetUsableModelsResponse,kind:s.MethodKind.Unary\x7d"

set_option maxRecDepth 40000 in
theorem C4_models_prefix_resolution_witness :
    occurs ModelsPatch.marker c4_demo = false ∧
      (ModelsPatch.apply c4_demo).1 = ModelsPatch.spec_output c4_demo :=
  ⟨by decide, (C4_models_prefix_resolution c4_demo (by decide)).1⟩

/-! ## JSON values and the staleness cache (`cache.py`)

JSON documents are modelled structurally: a file written with `json.dumps`
holds its parsed value (the byte-level codec round-trips and is out of
scope).  Numbers are restricted to integers — every number this program
persists is an `int` (`_coerce_int`'s float branch is never exercised by
data the program writes).  Parsed objects have unique keys, so lookup takes
the first match. -/

inductive Json where
  | jnull : Json
  | jbool : Bool → Json
  | jint : Int → Json
  | jstr : String → Json
  | jarr : List Json → Json
  | jobj : List (String × Json) → Json
deriving Repr

/-- Python `dict.get` on a parsed JSON object. -/
def jsonGet (kvs : List (String × Json)) (k : String) : Option Json :=
  match kvs with
  | [] => none
  | (k', v) :: rest => if k' = k then some v else jsonGet rest k

/-- Python dict assignment `m[k] = v`: overwrite in place, else append. -/
def dictInsert {β : Type} (m : List (String × β)) (k : String) (v : β) :
    List (String × β) :=
  match m with
  | [] => [(k, v)]
  | (k', v') :: rest => if k' = k then (k, v) :: rest else (k', v') :: dictInsert rest k v

def CACHE_FILENAME : String := ".cgp-patch-cache.json"

def CACHE_VERSION : Int := 1

def CACHE_SIGNATURE : String := "cgp_v1_autorun+models"

def STATUS_PATCHED : String := "already_patched"

def STATUS_NOT_APPLICABLE : String := "not_applicable"

/-- A cache entry as reconstructed by `load_cache`. -/
structure CacheEntry where
  mtime_ns : Int
  size : Int
  status : String
deriving Repr, DecidableEq

/-- `_coerce_int` on the result of `dict.get` (None, bool, non-number →
None; ints pass through; floats are out of the model's scope). -/
def coerce_int_opt : Option Json → Option Int
  | some (.jint n) => some n
  | _ => none

/-- The entry-validation loop of `load_cache`: drop entries with a missing
or non-numeric `mtime_ns`/`size` or a status outside the two enums. -/
def load_files : List (String × Json) → List (String × CacheEntry) →
    List (String × CacheEntry)
  | [], out => out
  | (k, v) :: rest, out =>
    match v with
    | .jobj fields =>
      match coerce_int_opt (jsonGet fields "mtime_ns"),
            coerce_int_opt (jsonGet fields "size"),
            jsonGet fields "status" with
      | some m, some sz, some (.jstr st) =>
        if st = STATUS_PATCHED ∨ st = STATUS_NOT_APPLICABLE then
          load_files rest (dictInsert out k ⟨m, sz, st⟩)
        else load_files rest out
      | _, _, _ => load_files rest out
    | _ => load_files rest out

/-- Python `obj.get("version") == n` for an integer constant (a JSON bool
is a Python `bool`, which is an `int`: `True == 1`). -/
def jsonEqInt (v : Option Json) (n : Int) : Bool :=
  match v with
  | some (.jint m) => m == n
  | some (.jbool b) => (if b then (1 : Int) else 0) == n
  | _ => false

/-- Python `obj.get("signature") == s` for a string constant. -/
def jsonEqStr (v : Option Json) (s : String) : Bool :=
  match v with
  | some (.jstr s') => s' == s
  | _ => false

/-- `load_cache` on a parsed document. -/
def load_cache_json (j : Json) : Option (List (String × CacheEntry)) :=
  match j with
  | .jobj kvs =>
    if !(jsonEqInt (jsonGet kvs "version") CACHE_VERSION) then none
    else if !(jsonEqStr (jsonGet kvs "signature") CACHE_SIGNATURE) then none
    else
      match jsonGet kvs "files" with
      | some (.jobj files) => some (load_files files [])
      | _ => none
  | _ => none

/-- Serialization of one entry by `save_cache`. -/
def entry_to_json (e : CacheEntry) : Json :=
  .jobj [("mtime_ns", .jint e.mtime_ns), ("size", .jint e.size),
         ("status", .jstr e.status)]

/-- The payload `save_cache` writes. -/
def save_cache_payload (files : List (String × CacheEntry)) : Json :=
  .jobj [("version", .jint CACHE_VERSION), ("signature", .jstr CACHE_SIGNATURE),
         ("files", .jobj (files.map fun kv => (kv.1, entry_to_json kv.2)))]

/-! ## Filesystem world and the backup store (`backup.py`) -/

/-- A file's stored data: raw text or a parsed JSON document. -/
inductive FsData where
  | text : Content → FsData
  | json : Json → FsData
deriving Repr

/-- A stat result; permissions are not modelled (every claim is
content-level; the permission-copying steps are best-effort no-ops). -/
structure Stat where
  mtime_ns : Int
  size : Int
deriving Repr, DecidableEq

/-- The filesystem: contents, stats, a permission map (`writable p = false`
makes writes and unlinks of `p` raise) and a clock for fresh mtimes. -/
structure World where
  files : String → Option FsData
  stats : String → Option Stat
  writable : String → Bool
  clock : Int

/-- Byte length of stored data as reported by stat.  JSON file sizes are
never read back by the engine; only text files' stats matter. -/
def dataLen : FsData → Int
  | .text t => t.length
  | .json _ => 0

/-- `write_bytes`: fails (raises) iff the path is not writable. -/
def writeData (w : World) (p : String) (d : FsData) : Option World :=
  if w.writable p then
    some { files := fun q => if q = p then some d else w.files q,
           stats := fun q => if q = p then some ⟨w.clock, dataLen d⟩ else w.stats q,
           writable := w.writable,
           clock := w.clock + 1 }
  else none

/-- `unlink`: fails (raises) iff the path is not writable. -/
def unlinkData (w : World) (p : String) : Option World :=
  if w.writable p then
    some { w with files := fun q => if q = p then none else w.files q,
                  stats := fun q => if q = p then none else w.stats q }
  else none

/-- `backup_path`: sidecar `<original>.cgp.bak`. -/
def backup_path (original : String) : String := original ++ ".cgp.bak"

/-- `has_backup`. -/
def has_backup (w : World) (original : String) : Bool :=
  (w.files (backup_path original)).isSome

/-- `create_backup`: idempotent; `none` on failure (unreadable original or
unwritable sidecar). -/
def create_backup (w : World) (original : String) : World × Option String :=
  let bak := backup_path original
  if (w.files bak).isSome then (w, some bak)
  else
    match w.files original with
    | none => (w, none)
    | some content =>
      match writeData w bak content with
      | some w' => (w', some bak)
      | none => (w, none)

/-- `restore_backup`: overwrite the original with the backup bytes. -/
def restore_backup (w : World) (original : String) : World × Bool :=
  match w.files (backup_path original) with
  | none => (w, false)
  | some content =>
    match writeData w original content with
    | some w' => (w', true)
    | none => (w, false)

/-- `remove_backup`. -/
def remove_backup (w : World) (original : String) : World × Bool :=
  match w.files (backup_path original) with
  | none => (w, false)
  | some _ =>
    match unlinkData w (backup_path original) with
    | some w' => (w', true)
    | none => (w, false)

/-- `cache_path root`: `root / .cgp-patch-cache.json` (POSIX join). -/
def cache_path (root : String) : String := root ++ "/" ++ CACHE_FILENAME

/-- `load_cache` over the world: absent file or a file that does not parse
as JSON yields `none`. -/
def load_cache (w : World) (root : String) : Option (List (String × CacheEntry)) :=
  match w.files (cache_path root) with
  | none => none
  | some (.text _) => none
  | some (.json j) => load_cache_json j

/-- `save_cache` over the world (`_atomic_write_json`'s temp-then-rename is
one atomic write here). -/
def save_cache (w : World) (root : String) (files : List (String × CacheEntry)) :
    Option World :=
  writeData w (cache_path root) (.json (save_cache_payload files))

/-! ## C6 and C7 -/

theorem dictInsert_not_mem {β : Type} {m : List (String × β)} {k : String} {v : β}
    (h : k ∉ m.map Prod.fst) : dictInsert m k v = m ++ [(k, v)] := by
  induction m with
  | nil => rfl
  | cons kv rest ih =>
    obtain ⟨k', v'⟩ := kv
    simp only [List.map_cons, List.mem_cons] at h
    push_neg at h
    obtain ⟨h1, h2⟩ := h
    simp only [dictInsert]
    rw [if_neg (fun hh => h1 hh.symm), ih h2]
    rfl

/-- Processing one serialized well-formed entry inserts it into the
accumulator dict. -/
theorem load_files_cons_valid (k : String) (e : CacheEntry)
    (rest : List (String × Json)) (acc : List (String × CacheEntry))
    (hstat : e.status = STATUS_PATCHED ∨ e.status = STATUS_NOT_APPLICABLE) :
    load_files ((k, entry_to_json e) :: rest) acc =
      load_files rest (dictInsert acc k e) := by
  obtain ⟨m, sz, st⟩ := e
  simp only at hstat
  rcases hstat with h | h <;> subst h <;> rfl

theorem load_files_roundtrip :
    ∀ (entries acc : List (String × CacheEntry)),
      (∀ kv ∈ entries,
        kv.2.status = STATUS_PATCHED ∨ kv.2.status = STATUS_NOT_APPLICABLE) →
      (entries.map Prod.fst).Nodup →
      (∀ kv ∈ entries, kv.1 ∉ acc.map Prod.fst) →
      load_files (entries.map fun kv => (kv.1, entry_to_json kv.2)) acc =
        acc ++ entries := by
  intro entries
  induction entries with
  | nil =>
    intro acc _ _ _
    simp [load_files]
  | cons kv rest ih =>
    intro acc hval hnodup hdisj
    obtain ⟨k, e⟩ := kv
    have hstat : e.status = STATUS_PATCHED ∨ e.status = STATUS_NOT_APPLICABLE :=
      hval (k, e) (List.mem_cons_self _ _)
    rw [List.map_cons, load_files_cons_valid k e _ acc hstat]
    have hknotin : k ∉ acc.map Prod.fst := hdisj (k, e) (List.mem_cons_self _ _)
    rw [dictInsert_not_mem hknotin]
    simp only [List.map_cons, List.nodup_cons] at hnodup
    rw [ih (acc ++ [(k, e)]) (fun x hx => hval x (List.mem_cons_of_mem _ hx))
      hnodup.2 ?_]
    · simp
    · intro x hx
      simp only [List.map_append, List.mem_append, List.map_cons, List.map_nil,
        List.mem_singleton]
      rintro (hin | hk)
      · exact hdisj x (List.mem_cons_of_mem _ hx) hin
      · exact hnodup.1 (hk ▸ List.mem_map_of_mem Prod.fst hx)

/-- The effect of a successful `writeData`. -/
theorem writeData_some {w : World} {p : String} {d : FsData} {w' : World}
    (h : writeData w p d = some w') :
    w'.files p = some d ∧ (∀ q, q ≠ p → w'.files q = w.files q) ∧
      w'.writable = w.writable ∧ w.writable p = true := by
  unfold writeData at h
  split at h
  · cases h
    rename_i hw
    refine ⟨?_, ?_, rfl, hw⟩
    · show (if p = p then some d else w.files p) = some d
      rw [if_pos rfl]
    · intro q hq
      show (if q = p then some d else w.files q) = w.files q
      rw [if_neg hq]
  · exact absurd h (by simp)

/-- C6: saving a cache of well-formed entries and loading it back
reconstructs exactly those entries; and `load_cache` yields an absent
cache — never a partially valid one — when the cache file is missing, when
it does not parse as a JSON object, or when the stored version or signature
differs from the expected constants. -/
theorem C6_cache_round_trip (w w' : World) (root : String)
    (entries : List (String × CacheEntry))
    (hnodup : (entries.map Prod.fst).Nodup)
    (hvalid : ∀ kv ∈ entries,
      kv.2.status = STATUS_PATCHED ∨ kv.2.status = STATUS_NOT_APPLICABLE)
    (hsave : save_cache w root entries = some w') :
    load_cache w' root = some entries ∧
    (∀ v : World, v.files (cache_path root) = none → load_cache v root = none) ∧
    (∀ (v : World) (t : Content), v.files (cache_path root) = some (.text t) →
      load_cache v root = none) ∧
    (∀ j : Json, (∀ kvs, j ≠ .jobj kvs) → load_cache_json j = none) ∧
    (∀ kvs, jsonEqInt (jsonGet kvs "version") CACHE_VERSION = false →
      load_cache_json (.jobj kvs) = none) ∧
    (∀ kvs, jsonEqStr (jsonGet kvs "signature") CACHE_SIGNATURE = false →
      load_cache_json (.jobj kvs) = none) := by
  refine ⟨?_, ?_, ?_, ?_, ?_, ?_⟩
  · unfold save_cache at hsave
    have hw' := writeData_some hsave
    unfold load_cache
    rw [hw'.1]
    show load_cache_json (save_cache_payload entries) = some entries
    rw [show load_cache_json (save_cache_payload entries) =
      some (load_files (entries.map fun kv => (kv.1, entry_to_json kv.2)) []) from rfl]
    rw [load_files_roundtrip entries [] hvalid hnodup (by simp)]
    simp
  · intro v h
    unfold load_cache
    rw [h]
  · intro v t h
    unfold load_cache
    rw [h]
  · intro j hne
    cases j with
    | jobj kvs => exact absurd rfl (hne kvs)
    | jnull => rfl
    | jbool b => rfl
    | jint n => rfl
    | jstr s => rfl
    | jarr xs => rfl
  · intro kvs h
    unfold load_cache_json
    simp [h]
  · intro kvs h
    unfold load_cache_json
    simp [h, ite_self]

def c6_w0 : World := ⟨fun _ => none, fun _ => none, fun _ => true, 0⟩

def c6_entries : List (String × CacheEntry) :=
  [("extensions/cursor-agent-exec/dist/main.js", ⟨1, 2, STATUS_PATCHED⟩)]

def c6_w1 : World :=
  { files := fun q => if q = cache_path "r" then
      some (.json (save_cache_payload c6_entries)) else c6_w0.files q,
    stats := fun q => if q = cache_path "r" then
      some ⟨c6_w0.clock, dataLen (.json (save_cache_payload c6_entries))⟩
      else c6_w0.stats q,
    writable := c6_w0.writable,
    clock := c6_w0.clock + 1 }

theorem C6_cache_round_trip_witness :
    load_cache c6_w1 "r" = some c6_entries :=
  (C6_cache_round_trip c6_w0 c6_w1 "r" c6_entries (by simp [c6_entries])
    (by decide) rfl).1

/-- C7: `create_backup` has first-write-wins semantics.  After a first call
creates the backup from content `c0`, any later world that agrees with that
result on the backup sidecar (in particular, after the original file's
content changed) makes a second `create_backup` call return the existing
backup path without modifying anything, and the backup still holds `c0` —
the bytes the original had before the first call. -/
theorem C7_backup_first_write_wins (w : World) (orig : String) (c0 : FsData)
    (w2 : World)
    (hc : w.files orig = some c0)
    (hnb : w.files (backup_path orig) = none)
    (hw : w.writable (backup_path orig) = true)
    (hagree : w2.files (backup_path orig) =
      (create_backup w orig).1.files (backup_path orig)) :
    (create_backup w2 orig).1 = w2 ∧
    (create_backup w2 orig).2 = some (backup_path orig) ∧
    w2.files (backup_path orig) = some c0 := by
  have h1 : (create_backup w orig).1.files (backup_path orig) = some c0 := by
    unfold create_backup
    simp only [hnb, Option.isSome_none, Bool.false_eq_true, if_false, hc]
    unfold writeData
    rw [hw]
    simp
  have h2 : w2.files (backup_path orig) = some c0 := hagree.trans h1
  refine ⟨?_, ?_, h2⟩ <;> simp [create_backup, h2]

def c7_w : World :=
  ⟨fun p => if p = "f.js" then some (.text (str "original")) else none,
    fun _ => none, fun _ => true, 0⟩

def c7_w2 : World :=
  ⟨fun p => if p = "f.js" then some (.text (str "patched"))
    else if p = backup_path "f.js" then some (.text (str "original")) else none,
    fun _ => none, fun _ => true, 7⟩

theorem C7_backup_first_write_wins_witness :
    (create_backup c7_w2 "f.js").1 = c7_w2 ∧
    (create_backup c7_w2 "f.js").2 = some (backup_path "f.js") ∧
    c7_w2.files (backup_path "f.js") = some (.text (str "original")) :=
  C7_backup_first_write_wins c7_w "f.js" (.text (str "original")) c7_w2
    rfl rfl rfl rfl

/-! ## Reports (`report.py`) and the engine's data (`discovery.py` surface)

Target enumeration and installation discovery are external collaborators:
an installation carries its already-enumerated target list.  Paths are
POSIX strings; `a / b` is `a ++ "/" ++ b`. -/

structure CodesignInfo where
  app_path : String := ""
  success : Bool := false
  error : String := ""
deriving Repr, DecidableEq

structure PatchReport where
  scanned : Nat := 0
  patched : List String := []
  already_patched : Nat := 0
  skipped_not_applicable : Nat := 0
  skipped_cached : Nat := 0
  errors : List (String × String) := []
  codesign : List CodesignInfo := []
deriving Repr, DecidableEq

/-- `PatchReport.ok`. -/
def PatchReport.ok (r : PatchReport) : Bool := r.errors.isEmpty

structure TargetFile where
  path : String
  extension : String
  patch_names : List String
deriving Repr, DecidableEq

structure CursorInstallation where
  kind : String
  root : String
  version_id : String
  targets : List TargetFile
deriving Repr, DecidableEq

/-- The two patch classes registered in `patches/__init__.py` (note:
`"autorun_workbench"` is used by `WORKBENCH_TARGETS` but is absent from the
`PATCHES` registry, so `get_patch` raises `ValueError` for it). -/
inductive PatchId where
  | autorun
  | models
deriving Repr, DecidableEq

/-- `get_patch`: `none` models the `ValueError` for unknown names. -/
def get_patch (name : String) : Option PatchId :=
  if name = "autorun" then some .autorun
  else if name = "models" then some .models
  else none

def patch_apply : PatchId → Content → Content × PatchResult
  | .autorun => AutoRunPatch.apply
  | .models => ModelsPatch.apply

def patch_marker : PatchId → Content
  | .autorun => AutoRunPatch.marker
  | .models => ModelsPatch.marker

/-- Python `dict.get` over an association list. -/
def dictGet {β : Type} : List (String × β) → String → Option β
  | [], _ => none
  | (k', v) :: rest, k => if k' = k then some v else dictGet rest k

/-- Python `str.startswith`, written over the character lists so that it
evaluates in the kernel. -/
def strStartsWith (pre s : String) : Bool := List.isPrefixOf pre.data s.data

/-- Python `str[n:]` over the character list. -/
def strDrop (s : String) (n : Nat) : String := ⟨s.data.drop n⟩

/-- `make_cache_key`: path relative to the root (POSIX) with the absolute
path as defensive fallback. -/
def make_cache_key (path root : String) : String :=
  if strStartsWith (root ++ "/") path then strDrop path (root ++ "/").length
  else path

/-- `make_cache_entry`. -/
def make_cache_entry (status : String) (st : Stat) : CacheEntry :=
  ⟨st.mtime_ns, st.size, status⟩

/-- `cache_entry_matches`. -/
def cache_entry_matches (entry : CacheEntry) (st : Stat) : Bool :=
  entry.mtime_ns == st.mtime_ns && entry.size == st.size

/-- Abstract content digests: the engine treats sha256 hex digests and
unpadded-base64 digests as opaque strings of the content. -/
structure HashFns where
  hex : Content → String
  b64 : Content → String

/-- `read_bytes().decode("utf-8", errors="replace")`.  Target files hold
text in every reachable state; decoding a JSON-holding file is never
exercised by the engine and yields the empty text here. -/
def decodeData : FsData → Content
  | .text t => t
  | .json _ => []

/-- `_EXT_HOST_RELPATH` and the two well-known auxiliary paths. -/
def EXT_HOST_RELPATH : String := "out/vs/workbench/api/node/extensionHostProcess.js"

def ext_host_path (root : String) : String := root ++ "/" ++ EXT_HOST_RELPATH

def product_json_path (root : String) : String := root ++ "/" ++ "product.json"

/-- Result of `_patch_target`: the new world, the updated report, the
updated new-cache snapshot and the optional `(old_hash, new_hash)` pair. -/
structure PTResult where
  world : World
  report : PatchReport
  new_cache : Option (List (String × CacheEntry))
  hash_pair : Option (String × String)

/-- The patch pipeline of `_patch_target`: run every applicable patch in
order, threading content, recording unknown-name errors, and aggregating
`any_applied` / `any_already`. -/
def patch_pipeline (path : String) (names : List String) (content : Content)
    (report : PatchReport) : Content × Bool × Bool × PatchReport :=
  names.foldl
    (fun acc name =>
      match get_patch name with
      | none =>
        (acc.1, acc.2.1, acc.2.2.1,
          { acc.2.2.2 with errors := acc.2.2.2.errors ++
              [(path, "Unknown patch: '" ++ name ++ "'")] })
      | some pid =>
        let r := patch_apply pid acc.1
        (r.1, acc.2.1 || r.2.applied, acc.2.2.1 || r.2.already_patched, acc.2.2.2))
    (content, false, false, report)

/-- The `only_patches` filtering of `_patch_target` (an empty set is falsy
in Python and applies no filter). -/
def effective_patch_names (target : TargetFile) (only_patches : Option (List String)) :
    List String :=
  match only_patches with
  | some ops => if ops.isEmpty then target.patch_names
      else target.patch_names.filter (fun n => ops.contains n)
  | none => target.patch_names

/-- The post-cache-check part of `_patch_target` (from `report.scanned += 1`
onward).  Permission preservation (`os.chmod`) is a no-op in the model; the
unused `any_not_applicable` aggregate of the source is omitted. -/
def _patch_target_scan (hx : HashFns) (w : World) (root : String) (target : TargetFile)
    (report : PatchReport) (new_cache : Option (List (String × CacheEntry)))
    (dry_run : Bool) (only_patches : Option (List String)) (st0 : Option Stat) :
    PTResult :=
  let path := target.path
  let cache_key := make_cache_key path root
  let report := { report with scanned := report.scanned + 1 }
  match w.files path with
  | none =>
    ⟨w, { report with errors := report.errors ++ [(path, "read failed")] },
      new_cache, none⟩
  | some d =>
    let content := decodeData d
    let patch_names := effective_patch_names target only_patches
    let piped := patch_pipeline path patch_names content report
    let new_content := piped.1
    let any_applied := piped.2.1
    let any_already := piped.2.2.1
    let report := piped.2.2.2
    if !any_applied then
      let pr :=
        if any_already then
          ({ report with already_patched := report.already_patched + 1 },
            STATUS_PATCHED)
        else
          ({ report with
              skipped_not_applicable := report.skipped_not_applicable + 1 },
            STATUS_NOT_APPLICABLE)
      let stNow := match st0 with
        | some st => some st
        | none => w.stats path
      let nc :=
        match stNow with
        | some st => new_cache.map (fun m =>
            dictInsert m cache_key (make_cache_entry pr.2 st))
        | none => new_cache
      ⟨w, pr.1, nc, none⟩
    else if dry_run then
      ⟨w, { report with patched := report.patched ++ [path] }, new_cache, none⟩
    else
      let old_hash := hx.hex content
      match create_backup w path with
      | (w1, none) =>
        ⟨w1, { report with errors := report.errors ++ [(path, "backup failed")] },
          new_cache, none⟩
      | (w1, some _) =>
        match writeData w1 path (.text new_content) with
        | none =>
          ⟨w1, { report with errors := report.errors ++ [(path, "write failed")] },
            new_cache, none⟩
        | some w2 =>
          let report := { report with patched := report.patched ++ [path] }
          let new_hash := hx.hex new_content
          let nc :=
            match w2.stats path with
            | some st_after => new_cache.map (fun m =>
                dictInsert m cache_key (make_cache_entry STATUS_PATCHED st_after))
            | none => new_cache
          ⟨w2, report, nc, some (old_hash, new_hash)⟩

/-- `_patch_target`. -/
def _patch_target (hx : HashFns) (w : World) (root : String) (target : TargetFile)
    (report : PatchReport) (cache_data : Option (List (String × CacheEntry)))
    (new_cache : Option (List (String × CacheEntry))) (dry_run : Bool)
    (only_patches : Option (List String)) : PTResult :=
  let path := target.path
  let cache_key := make_cache_key path root
  -- cache check (only when cache_data was loaded)
  let stOpt : Option (Option Stat) :=
    match cache_data with
    | some _ => some (w.stats path)
    | none => none
  match stOpt with
  | some none =>
    ⟨w, { report with errors := report.errors ++ [(path, "stat failed")] },
      new_cache, none⟩
  | some (some st) =>
    (match cache_data.bind (fun cd => dictGet cd cache_key) with
     | some cached =>
       if cache_entry_matches cached st then
         let r1 := { report with skipped_cached := report.skipped_cached + 1 }
         let r2 :=
           if cached.status = STATUS_PATCHED then
             { r1 with already_patched := r1.already_patched + 1 }
           else if cached.status = STATUS_NOT_APPLICABLE then
             { r1 with skipped_not_applicable := r1.skipped_not_applicable + 1 }
           else r1
         let nc := new_cache.map (fun m => dictInsert m cache_key cached)
         ⟨w, r2, nc, none⟩
       else _patch_target_scan hx w root target report new_cache dry_run
         only_patches (some st)
     | none => _patch_target_scan hx w root target report new_cache dry_run
         only_patches (some st))
  | none => _patch_target_scan hx w root target report new_cache dry_run
      only_patches none

/-- `_update_extension_host_hashes`: substring-replace every old hash by
its new hash across the loader file; back up and write only when something
changed.  Returns whether the file was modified. -/
def _update_extension_host_hashes (w : World) (inst : CursorInstallation)
    (hash_pairs : List (String × String)) (report : PatchReport) :
    World × PatchReport × Bool :=
  let ext_host := ext_host_path inst.root
  match w.files ext_host with
  | none => (w, report, false)
  | some d =>
    let content := decodeData d
    let new_content :=
      hash_pairs.foldl (fun c pr => pyReplaceAll c (str pr.1) (str pr.2)) content
    if new_content = content then (w, report, false)
    else
      match create_backup w ext_host with
      | (w1, none) =>
        (w1, { report with errors := report.errors ++ [(ext_host, "backup failed")] },
          false)
      | (w1, some _) =>
        match writeData w1 ext_host (.text new_content) with
        | some w2 => (w2, report, true)
        | none =>
          (w1, { report with errors := report.errors ++ [(ext_host, "write failed")] },
            false)

/-- `_update_product_json_checksums`.  A `product.json` that holds raw text
models a `json.loads` failure; a parsed document that is not an object
would raise `AttributeError` in the source (unreachable for real files)
and is a no-op here. -/
def _update_product_json_checksums (hx : HashFns) (w : World)
    (inst : CursorInstallation) (modified_files : List String)
    (report : PatchReport) : World × PatchReport :=
  let pj := product_json_path inst.root
  match w.files pj with
  | none => (w, report)
  | some (.text _) =>
    (w, { report with errors := report.errors ++ [(pj, "read failed")] })
  | some (.json data) =>
    match data with
    | .jobj kvs =>
      match jsonGet kvs "checksums" with
      | some (.jobj checksums) =>
        if checksums.isEmpty then (w, report)
        else
          let out_dir := inst.root ++ "/out"
          let upd := modified_files.foldl
            (fun (acc : List (String × Json) × Bool) fp =>
              if strStartsWith (out_dir ++ "/") fp then
                let rel := strDrop fp (out_dir ++ "/").length
                match jsonGet acc.1 rel with
                | none => acc
                | some _ =>
                  match w.files fp with
                  | some d =>
                    (dictInsert acc.1 rel (.jstr (hx.b64 (decodeData d))), true)
                  | none => acc
              else acc)
            (checksums, false)
          if !upd.2 then (w, report)
          else
            let data' := Json.jobj (dictInsert kvs "checksums" (.jobj upd.1))
            match create_backup w pj with
            | (w1, none) =>
              (w1, { report with errors := report.errors ++ [(pj, "backup failed")] })
            | (w1, some _) =>
              match writeData w1 pj (.json data') with
              | some w2 => (w2, report)
              | none =>
                (w1,
                  { report with errors := report.errors ++ [(pj, "write failed")] })
      | _ => (w, report)
    | _ => (w, report)

/-- The files rolled back for one installation: everything patched during
this installation plus the loader and manifest files. -/
def restore_set (inst : CursorInstallation) (report : PatchReport)
    (patched_from : Nat) : List String :=
  report.patched.drop patched_from ++
    [ext_host_path inst.root, product_json_path inst.root]

/-- One step of the rollback loop: skip already-seen paths and paths with
no backup; otherwise restore, recording failures as errors. -/
def rollback_step (acc : World × PatchReport × List String) (p : String) :
    World × PatchReport × List String :=
  if p ∈ acc.2.2 then acc
  else
    let seen := p :: acc.2.2
    if !has_backup acc.1 p then (acc.1, acc.2.1, seen)
    else
      match restore_backup acc.1 p with
      | (w', true) => (w', acc.2.1, seen)
      | (w', false) =>
        (w', { acc.2.1 with errors := acc.2.1.errors ++
            [(p, "rollback restore failed")] }, seen)

/-- `_rollback_installation_changes`: best-effort restore of every file
patched during this installation plus the two auxiliary files, truncation
of the patched list, and best-effort deletion of the cache file. -/
def _rollback_installation_changes (w : World) (inst : CursorInstallation)
    (report : PatchReport) (patched_from : Nat) : World × PatchReport :=
  let restore_paths := restore_set inst report patched_from
  let folded := restore_paths.foldl rollback_step (w, report, [])
  let w1 := folded.1
  let rep1 := { folded.2.1 with patched := folded.2.1.patched.take patched_from }
  let cache_file := cache_path inst.root
  let w2 :=
    if (w1.files cache_file).isSome then
      match unlinkData w1 cache_file with
      | some w' => w'
      | none => w1
    else w1
  (w2, rep1)

/-- `_patch_installation` up to (excluding) the rollback decision: cache
load, the per-target loop, the hash sync and the checksum sync. -/
def _patch_installation_mid (hx : HashFns) (inst : CursorInstallation)
    (report : PatchReport) (w : World) (dry_run force : Bool)
    (only_patches : Option (List String)) :
    World × PatchReport × Option (List (String × CacheEntry)) :=
  let cache_data := if !dry_run && !force then load_cache w inst.root else none
  let new_cache : Option (List (String × CacheEntry)) :=
    if !dry_run then some [] else none
  let patched_before := report.patched.length
  let folded := inst.targets.foldl
    (fun (acc : World × PatchReport × Option (List (String × CacheEntry)) ×
        List (String × String)) t =>
      let r := _patch_target hx acc.1 inst.root t acc.2.1 cache_data acc.2.2.1
        dry_run only_patches
      (r.world, r.report, r.new_cache,
        acc.2.2.2 ++ (match r.hash_pair with | some pr => [pr] | none => [])))
    (w, report, new_cache, [])
  let w1 := folded.1
  let rep1 := folded.2.1
  let nc1 := folded.2.2.1
  let hash_pairs := folded.2.2.2
  let ehm :=
    if !hash_pairs.isEmpty then _update_extension_host_hashes w1 inst hash_pairs rep1
    else (w1, rep1, false)
  let w2 := ehm.1
  let rep2 := ehm.2.1
  let ext_host_modified := ehm.2.2
  if !dry_run then
    let newly_patched := rep2.patched.drop patched_before
    let out_dir := inst.root ++ "/out"
    let out_files0 := newly_patched.filter (fun p => strStartsWith (out_dir ++ "/") p)
    let out_files :=
      if ext_host_modified && !(out_files0.contains (ext_host_path inst.root)) then
        out_files0 ++ [ext_host_path inst.root]
      else out_files0
    if !out_files.isEmpty then
      let upd := _update_product_json_checksums hx w2 inst out_files rep2
      (upd.1, upd.2, nc1)
    else (w2, rep2, nc1)
  else (w2, rep2, nc1)

/-- `_patch_installation`: the mid pipeline, the rollback decision at its
end, and the conditional cache save (persist failures swallowed). -/
def _patch_installation (hx : HashFns) (inst : CursorInstallation)
    (report : PatchReport) (w : World) (dry_run force : Bool)
    (only_patches : Option (List String)) : World × PatchReport :=
  let errors_before := report.errors.length
  let patched_before := report.patched.length
  let mid := _patch_installation_mid hx inst report w dry_run force only_patches
  let w1 := mid.1
  let rep1 := mid.2.1
  let nc1 := mid.2.2
  let rolled :=
    if !dry_run && errors_before < rep1.errors.length &&
        patched_before < rep1.patched.length then
      _rollback_installation_changes w1 inst rep1 patched_before
    else (w1, rep1)
  let w2 := rolled.1
  let rep2 := rolled.2
  match nc1 with
  | some nc =>
    if rep2.errors.length == errors_before then
      match save_cache w2 inst.root nc with
      | some w3 => (w3, rep2)
      | none => (w2, rep2)
    else (w2, rep2)
  | none => (w2, rep2)

/-- The external re-signing collaborator (`codesign.py` surface). -/
structure CodesignEnv where
  needs_codesign : String → String → Bool
  codesign_app : String → CodesignInfo

/-- `patch` (the top-level batch loop; discovery is external, so the
installation list is an input). -/
def patch_run (hx : HashFns) (cs : CodesignEnv)
    (installations : List CursorInstallation) (w : World) (dry_run force : Bool)
    (only_patches : Option (List String)) : World × PatchReport :=
  installations.foldl
    (fun acc inst =>
      let patched_before := acc.2.patched.length
      let stepped := _patch_installation hx inst acc.2 acc.1 dry_run force
        only_patches
      let w1 := stepped.1
      let rep1 := stepped.2
      if !dry_run && patched_before < rep1.patched.length &&
          cs.needs_codesign inst.root inst.kind then
        (w1, { rep1 with codesign := rep1.codesign ++ [cs.codesign_app inst.root] })
      else (w1, rep1))
    (w, {})

/-! ## Unpatch, status and the CLI dispatch (`cli.py`) -/

structure UnpatchReport where
  restored : List String := []
  no_backup : List String := []
  errors : List (String × String) := []
  codesign : List CodesignInfo := []
deriving Repr, DecidableEq

/-- `UnpatchReport.ok`. -/
def UnpatchReport.ok (r : UnpatchReport) : Bool := r.errors.isEmpty

/-- `unpatch`. -/
def unpatch_run (cs : CodesignEnv) (installations : List CursorInstallation)
    (w : World) (dry_run : Bool) : World × UnpatchReport :=
  installations.foldl
    (fun acc inst =>
      let restored_before := acc.2.restored.length
      let ft := inst.targets.foldl
        (fun (a : World × UnpatchReport) t =>
          if !has_backup a.1 t.path then
            (a.1, { a.2 with no_backup := a.2.no_backup ++ [t.path] })
          else if dry_run then
            (a.1, { a.2 with restored := a.2.restored ++ [t.path] })
          else
            match restore_backup a.1 t.path with
            | (w1, true) =>
              let w2 := (remove_backup w1 t.path).1
              let cache_file := cache_path inst.root
              let w3 :=
                if (w2.files cache_file).isSome then
                  match unlinkData w2 cache_file with
                  | some wx => wx
                  | none => w2
                else w2
              (w3, { a.2 with restored := a.2.restored ++ [t.path] })
            | (w1, false) =>
              (w1, { a.2 with errors := a.2.errors ++ [(t.path, "restore failed")] }))
        acc
      let fa := [ext_host_path inst.root, product_json_path inst.root].foldl
        (fun (a : World × UnpatchReport) p =>
          if !dry_run && has_backup a.1 p then
            match restore_backup a.1 p with
            | (w1, true) =>
              let w2 := (remove_backup w1 p).1
              (w2, { a.2 with restored := a.2.restored ++ [p] })
            | (w1, false) =>
              (w1, { a.2 with errors := a.2.errors ++ [(p, "restore failed")] })
          else if dry_run && has_backup a.1 p then
            (a.1, { a.2 with restored := a.2.restored ++ [p] })
          else a)
        ft
      if !dry_run && restored_before < fa.2.restored.length &&
          cs.needs_codesign inst.root inst.kind then
        (fa.1, { fa.2 with codesign := fa.2.codesign ++ [cs.codesign_app inst.root] })
      else fa)
    (w, {})

structure FileStatus where
  path : String
  extension : String
  patch_names : List String
  patched : List (String × Bool) := []
  has_backup : Bool := false
  error : String := ""
deriving Repr, DecidableEq

structure StatusReport where
  installations : List (String × String × String) := []
  files : List FileStatus := []
deriving Repr, DecidableEq

/-- `status` (read-only flow). -/
def status_run (installations : List CursorInstallation) (w : World) :
    StatusReport :=
  installations.foldl
    (fun rep inst =>
      let rep := { rep with installations :=
        rep.installations ++ [(inst.kind, inst.root, inst.version_id)] }
      inst.targets.foldl
        (fun rep t =>
          let fs0 : FileStatus :=
            ⟨t.path, t.extension, t.patch_names, [], has_backup w t.path, ""⟩
          match w.files t.path with
          | none =>
            { rep with files := rep.files ++ [{ fs0 with error := "read failed" }] }
          | some d =>
            let content := decodeData d
            let patched := t.patch_names.map (fun n =>
              (n, match get_patch n with
                  | some pid => occurs (patch_marker pid) content
                  | none => false))
            { rep with files := rep.files ++ [{ fs0 with patched := patched }] })
        rep)
    {}

/-- A status report contains an error when any per-file read error was
recorded. -/
def statusHasError (r : StatusReport) : Bool := r.files.any (fun f => f.error ≠ "")

/-- Parsed CLI commands (argument parsing is external). -/
inductive Command where
  | patchC (dry_run force only_autorun only_models : Bool)
  | unpatchC (dry_run : Bool)
  | statusC (json_output : Bool)
deriving Repr, DecidableEq

/-- The `--only-autorun` / `--only-models` flag translation of `main`. -/
def cli_only_patches (only_autorun only_models : Bool) : Option (List String) :=
  if only_autorun || only_models then
    some ((if only_autorun then ["autorun"] else []) ++
      (if only_models then ["models"] else []))
  else none

/-- `main`'s dispatch: exit code 1 via `sys.exit(1)` when the patch or
unpatch report is not ok; the status branch never exits non-zero. -/
def cli_main (hx : HashFns) (cs : CodesignEnv)
    (installations : List CursorInstallation) (w : World) : Command → Nat
  | .patchC dry_run force only_autorun only_models =>
    let r := patch_run hx cs installations w dry_run force
      (cli_only_patches only_autorun only_models)
    if r.2.ok then 0 else 1
  | .unpatchC dry_run =>
    let r := unpatch_run cs installations w dry_run
    if r.2.ok then 0 else 1
  | .statusC _ =>
    let _ := status_run installations w
    0

/-! ## C5: backup gates the write in the per-file step -/

theorem create_backup_snd_none (w : World) (p : String) :
    (create_backup w p).2 = none → create_backup w p = (w, none) := by
  unfold create_backup
  simp only
  split
  · intro h; simp at h
  · split
    · intro _; rfl
    · split
      · intro h; simp at h
      · intro _; rfl

/-- Under a failing `create_backup`, every branch of the scan step leaves
the target file unchanged and produces no hash pair. -/
theorem scan_backup_fail_aux (hx : HashFns) (w : World) (root : String)
    (target : TargetFile) (report : PatchReport)
    (new_cache : Option (List (String × CacheEntry)))
    (only_patches : Option (List String)) (st0 : Option Stat)
    (hb : (create_backup w target.path).2 = none) :
    (_patch_target_scan hx w root target report new_cache false only_patches
      st0).hash_pair = none ∧
    (_patch_target_scan hx w root target report new_cache false only_patches
      st0).world.files target.path = w.files target.path := by
  have hcb : create_backup w target.path = (w, none) :=
    create_backup_snd_none w target.path hb
  unfold _patch_target_scan
  simp only
  split
  · exact ⟨rfl, rfl⟩
  · split
    · exact ⟨rfl, rfl⟩
    · simp only [Bool.false_eq_true, if_false]
      rw [hcb]
      exact ⟨rfl, rfl⟩

set_option maxRecDepth 4000 in
/-- C5: with `dry_run` false the per-file step never writes the target
without a successful backup: whenever `create_backup` fails, the step
produces no hash pair and leaves the target file unchanged; and when the
step actually reaches the backup point (no cache skip, readable file, some
patch applied), the failure is recorded as a `"backup failed"` error for
that path and nothing else changes. -/
theorem C5_backup_gates_write (hx : HashFns) (w : World) (root : String)
    (target : TargetFile) (report : PatchReport)
    (cache_data new_cache : Option (List (String × CacheEntry)))
    (only_patches : Option (List String)) (st0 : Option Stat)
    (hb : (create_backup w target.path).2 = none) :
    ((_patch_target hx w root target report cache_data new_cache false
        only_patches).hash_pair = none ∧
      (_patch_target hx w root target report cache_data new_cache false
        only_patches).world.files target.path = w.files target.path) ∧
    (∀ d, w.files target.path = some d →
      (patch_pipeline target.path (effective_patch_names target only_patches)
        (decodeData d) { report with scanned := report.scanned + 1 }).2.1 = true →
      _patch_target_scan hx w root target report new_cache false only_patches st0 =
        ⟨w,
          { (patch_pipeline target.path (effective_patch_names target only_patches)
              (decodeData d) { report with scanned := report.scanned + 1 }).2.2.2 with
            errors := (patch_pipeline target.path
              (effective_patch_names target only_patches) (decodeData d)
              { report with scanned := report.scanned + 1 }).2.2.2.errors ++
              [(target.path, "backup failed")] },
          new_cache, none⟩) := by
  have hcb : create_backup w target.path = (w, none) :=
    create_backup_snd_none w target.path hb
  constructor
  · unfold _patch_target
    simp only
    split
    · exact ⟨rfl, rfl⟩
    · split
      · split
        · exact ⟨rfl, rfl⟩
        · exact scan_backup_fail_aux hx w root target report new_cache
            only_patches _ hb
      · exact scan_backup_fail_aux hx w root target report new_cache
          only_patches _ hb
    · exact scan_backup_fail_aux hx w root target report new_cache
        only_patches _ hb
  · intro d hd hap
    unfold _patch_target_scan
    simp only
    rw [hd]
    simp only
    rw [hap]
    simp only [Bool.not_true, Bool.false_eq_true, if_false]
    rw [hcb]

/-- C5 witness data: an autorun target whose content is the call-site
pattern, in a world where nothing is writable (so the backup write
fails). -/
def c5_target : TargetFile := ⟨"r/ext/a/dist/main.js", "a", ["autorun"]⟩

def c5_content : Content := str "this.teamSettingsService.getAutoRunControls()"

def c5_w : World :=
  { files := fun p => if p = "r/ext/a/dist/main.js" then some (.text c5_content)
      else none,
    stats := fun _ => none,
    writable := fun _ => false,
    clock := 0 }

def c5_hx : HashFns := ⟨fun _ => "h", fun _ => "h"⟩

set_option maxRecDepth 40000 in
theorem C5_backup_gates_write_witness :
    (create_backup c5_w c5_target.path).2 = none ∧
    (_patch_target c5_hx c5_w "r" c5_target {} none (some []) false
      none).hash_pair = none ∧
    (_patch_target_scan c5_hx c5_w "r" c5_target {} (some []) false none
      none).report.errors = [(c5_target.path, "backup failed")] := by
  refine ⟨by decide, (C5_backup_gates_write c5_hx c5_w "r" c5_target {} none
    (some []) none none (by decide)).1.1, ?_⟩
  have h := (C5_backup_gates_write c5_hx c5_w "r" c5_target {} none (some [])
    none none (by decide)).2 (.text c5_content) rfl (by decide)
  rw [h]
  decide

/-! ## C9: CLI exit status versus report errors -/

/-- C9 counterexample data: one installation whose only target file is
missing, so the status report records a per-file read error. -/
def c9_inst : CursorInstallation := ⟨"gui", "r", "v", [⟨"r/x.js", "e", ["autorun"]⟩]⟩

def c9_w : World := ⟨fun _ => none, fun _ => none, fun _ => true, 0⟩

def c9_hx : HashFns := ⟨fun _ => "", fun _ => ""⟩

def c9_cs : CodesignEnv := ⟨fun _ _ => false, fun _ => {}⟩

/-- C9 counterexample: a status run over a missing target file records a
per-file read error in its report, yet the CLI exits 0 — so "exit status
non-zero iff the report contains any error" fails for the status
subcommand. -/
theorem C9_counterexample :
    statusHasError (status_run [c9_inst] c9_w) = true ∧
    cli_main c9_hx c9_cs [c9_inst] c9_w (.statusC false) = 0 :=
  ⟨by decide, rfl⟩

/-- C9 amended: for the patch and unpatch subcommands the exit status is
non-zero iff the resulting report contains an error; the status subcommand
always exits 0, even when its report records per-file read errors. -/
theorem C9_amended_exit_status (hx : HashFns) (cs : CodesignEnv)
    (insts : List CursorInstallation) (w : World) (d f oa om du jo : Bool) :
    (cli_main hx cs insts w (.patchC d f oa om) ≠ 0 ↔
      (patch_run hx cs insts w d f (cli_only_patches oa om)).2.errors ≠ []) ∧
    (cli_main hx cs insts w (.unpatchC du) ≠ 0 ↔
      (unpatch_run cs insts w du).2.errors ≠ []) ∧
    cli_main hx cs insts w (.statusC jo) = 0 := by
  refine ⟨?_, ?_, rfl⟩
  · by_cases he : (patch_run hx cs insts w d f (cli_only_patches oa om)).2.errors = []
    · simp [cli_main, PatchReport.ok, he]
    · simp [cli_main, PatchReport.ok, he, List.isEmpty_iff]
  · by_cases he : (unpatch_run cs insts w du).2.errors = []
    · simp [cli_main, UnpatchReport.ok, he]
    · simp [cli_main, UnpatchReport.ok, he, List.isEmpty_iff]

theorem C9_amended_exit_status_witness :
    cli_main c9_hx c9_cs [c9_inst] c9_w (.statusC true) = 0 :=
  (C9_amended_exit_status c9_hx c9_cs [c9_inst] c9_w false false false false
    false true).2.2

/-! ## C1: rollback on a failed installation

The patched list only ever grows during the mid pipeline (per-target loop
plus the two sync steps); the rollback loop restores every not-yet-seen
path that has a backup, leaves the patched list alone and appends at most
errors; `_rollback_installation_changes` then truncates the patched list
and deletes the cache file. -/

theorem pipeline_fold_patched (path : String) :
    ∀ (names : List String) (acc : Content × Bool × Bool × PatchReport),
      ((names.foldl
        (fun acc name =>
          match get_patch name with
          | none =>
            (acc.1, acc.2.1, acc.2.2.1,
              { acc.2.2.2 with errors := acc.2.2.2.errors ++
                  [(path, "Unknown patch: '" ++ name ++ "'")] })
          | some pid =>
            let r := patch_apply pid acc.1
            (r.1, acc.2.1 || r.2.applied, acc.2.2.1 || r.2.already_patched,
              acc.2.2.2))
        acc).2.2.2).patched = acc.2.2.2.patched
  | [], _ => rfl
  | name :: rest, acc => by
    rw [List.foldl_cons]
    rw [pipeline_fold_patched path rest _]
    cases get_patch name <;> rfl

theorem patch_pipeline_patched (path : String) (names : List String)
    (content : Content) (report : PatchReport) :
    (patch_pipeline path names content report).2.2.2.patched = report.patched :=
  pipeline_fold_patched path names (content, false, false, report)

theorem scan_patched_ext (hx : HashFns) (w : World) (root : String)
    (target : TargetFile) (report : PatchReport)
    (new_cache : Option (List (String × CacheEntry))) (dry_run : Bool)
    (only_patches : Option (List String)) (st0 : Option Stat) :
    ∃ tail, (_patch_target_scan hx w root target report new_cache dry_run
      only_patches st0).report.patched = report.patched ++ tail := by
  unfold _patch_target_scan
  simp only
  split
  · exact ⟨[], by simp⟩
  · split
    · split
      · exact ⟨[], by simp [patch_pipeline_patched]⟩
      · exact ⟨[], by simp [patch_pipeline_patched]⟩
    · split
      · exact ⟨[target.path], by simp [patch_pipeline_patched]⟩
      · split
        · exact ⟨[], by simp [patch_pipeline_patched]⟩
        · split
          · exact ⟨[], by simp [patch_pipeline_patched]⟩
          · exact ⟨[target.path], by simp [patch_pipeline_patched]⟩

theorem patch_target_patched_ext (hx : HashFns) (w : World) (root : String)
    (target : TargetFile) (report : PatchReport)
    (cache_data new_cache : Option (List (String × CacheEntry))) (dry_run : Bool)
    (only_patches : Option (List String)) :
    ∃ tail, (_patch_target hx w root target report cache_data new_cache dry_run
      only_patches).report.patched = report.patched ++ tail := by
  unfold _patch_target
  simp only
  split
  · exact ⟨[], by simp⟩
  · split
    · split
      · refine ⟨[], ?_⟩
        simp only [List.append_nil]
        repeat' split
        all_goals rfl
      · exact scan_patched_ext hx w root target report new_cache dry_run
          only_patches _
    · exact scan_patched_ext hx w root target report new_cache dry_run
        only_patches _
  · exact scan_patched_ext hx w root target report new_cache dry_run
      only_patches _

theorem targets_fold_patched_ext (hx : HashFns) (root : String)
    (cache_data : Option (List (String × CacheEntry))) (dry_run : Bool)
    (only_patches : Option (List String)) :
    ∀ (ts : List TargetFile)
      (acc : World × PatchReport × Option (List (String × CacheEntry)) ×
        List (String × String)),
      ∃ tail, ((ts.foldl
        (fun (acc : World × PatchReport × Option (List (String × CacheEntry)) ×
            List (String × String)) t =>
          let r := _patch_target hx acc.1 root t acc.2.1 cache_data acc.2.2.1
            dry_run only_patches
          (r.world, r.report, r.new_cache,
            acc.2.2.2 ++ (match r.hash_pair with | some pr => [pr] | none => [])))
        acc).2.1).patched = acc.2.1.patched ++ tail
  | [], acc => ⟨[], by simp⟩
  | t :: rest, acc => by
    rw [List.foldl_cons]
    obtain ⟨d2, h2⟩ := targets_fold_patched_ext hx root cache_data dry_run
      only_patches rest _
    obtain ⟨d1, h1⟩ := patch_target_patched_ext hx acc.1 root t acc.2.1
      cache_data acc.2.2.1 dry_run only_patches
    exact ⟨d1 ++ d2, by rw [h2]; simp only; rw [h1, List.append_assoc]⟩

theorem ext_host_patched (w : World) (inst : CursorInstallation)
    (hash_pairs : List (String × String)) (report : PatchReport) :
    (_update_extension_host_hashes w inst hash_pairs report).2.1.patched =
      report.patched := by
  unfold _update_extension_host_hashes
  simp only
  repeat' split
  all_goals rfl

theorem product_json_patched (hx : HashFns) (w : World)
    (inst : CursorInstallation) (modified_files : List String)
    (report : PatchReport) :
    (_update_product_json_checksums hx w inst modified_files report).2.patched =
      report.patched := by
  unfold _update_product_json_checksums
  simp only
  repeat' split
  all_goals rfl

theorem mid_patched_ext (hx : HashFns) (inst : CursorInstallation)
    (report : PatchReport) (w : World) (dry_run force : Bool)
    (only_patches : Option (List String)) :
    ∃ tail, (_patch_installation_mid hx inst report w dry_run force
      only_patches).2.1.patched = report.patched ++ tail := by
  unfold _patch_installation_mid
  simp only
  repeat' split
  all_goals simp only [product_json_patched, ext_host_patched]
  all_goals
    exact targets_fold_patched_ext hx inst.root _ dry_run only_patches
      inst.targets _

theorem rollback_step_shape (acc : World × PatchReport × List String) (p : String) :
    (rollback_step acc p).2.1.patched = acc.2.1.patched ∧
    acc.2.1.errors.length ≤ (rollback_step acc p).2.1.errors.length := by
  unfold rollback_step
  simp only
  repeat' split
  all_goals exact ⟨rfl, by simp⟩

theorem rollback_fold_patched :
    ∀ (L : List String) (acc : World × PatchReport × List String),
      ((L.foldl rollback_step acc).2.1).patched = acc.2.1.patched
  | [], _ => rfl
  | p :: rest, acc => by
    rw [List.foldl_cons, rollback_fold_patched rest _]
    exact (rollback_step_shape acc p).1

theorem rollback_fold_errors_len :
    ∀ (L : List String) (acc : World × PatchReport × List String),
      acc.2.1.errors.length ≤ ((L.foldl rollback_step acc).2.1).errors.length
  | [], _ => le_refl _
  | p :: rest, acc => by
    rw [List.foldl_cons]
    exact le_trans (rollback_step_shape acc p).2 (rollback_fold_errors_len rest _)

theorem restore_backup_success {w : World} {p : String}
    (hb : has_backup w p = true) (hw : w.writable p = true) :
    (restore_backup w p).2 = true ∧
    (restore_backup w p).1.writable = w.writable ∧
    (restore_backup w p).1.files p = w.files (backup_path p) ∧
    (∀ q, q ≠ p → (restore_backup w p).1.files q = w.files q) := by
  have hb' : (w.files (backup_path p)).isSome = true := hb
  obtain ⟨c, hc⟩ := Option.isSome_iff_exists.mp hb'
  have hwd : writeData w p c = some
      { files := fun q => if q = p then some c else w.files q,
        stats := fun q => if q = p then some ⟨w.clock, dataLen c⟩ else w.stats q,
        writable := w.writable,
        clock := w.clock + 1 } := by
    unfold writeData
    rw [if_pos hw]
  have hrb : restore_backup w p =
      ({ files := fun q => if q = p then some c else w.files q,
         stats := fun q => if q = p then some ⟨w.clock, dataLen c⟩ else w.stats q,
         writable := w.writable,
         clock := w.clock + 1 }, true) := by
    simp only [restore_backup, hc, hwd]
  rw [hrb]
  refine ⟨rfl, rfl, ?_, ?_⟩
  · show (if p = p then some c else w.files p) = w.files (backup_path p)
    rw [if_pos rfl, hc]
  · intro q hq
    show (if q = p then some c else w.files q) = w.files q
    rw [if_neg hq]

theorem rollback_step_seen {acc : World × PatchReport × List String} {p : String}
    (h : p ∈ acc.2.2) : rollback_step acc p = acc := by
  unfold rollback_step
  rw [if_pos h]

theorem rollback_step_nobak {w : World} {rep : PatchReport} {seen : List String}
    {p : String} (h : p ∉ seen) (hb : has_backup w p = false) :
    rollback_step (w, rep, seen) p = (w, rep, p :: seen) := by
  simp only [rollback_step]
  rw [if_neg h]
  simp only [hb, Bool.not_false, if_true]

theorem rollback_step_restore {w : World} {rep : PatchReport} {seen : List String}
    {p : String} (h : p ∉ seen) (hb : has_backup w p = true)
    (hs : (restore_backup w p).2 = true) :
    rollback_step (w, rep, seen) p = ((restore_backup w p).1, rep, p :: seen) := by
  have hrb : restore_backup w p = ((restore_backup w p).1, true) := by
    rw [← hs]
  simp only [rollback_step]
  rw [if_neg h]
  simp only [hb, Bool.not_true, Bool.false_eq_true, if_false]
  rw [hrb]

/-- The rollback loop over any path list `L`, started with seen-set `seen`:
it preserves the permission map, touches no file outside `L \ seen`
(backups of `L`-members are outside `L` by the no-aliasing hypothesis), and
restores every unseen `L`-member that has a backup to that backup's bytes —
provided every `L`-member is writable. -/
theorem rollback_fold_spec :
    ∀ (L : List String) (w : World) (rep : PatchReport) (seen : List String),
      (∀ p ∈ L, w.writable p = true) →
      (∀ p ∈ L, ∀ q ∈ L, backup_path q ≠ p) →
      (L.foldl rollback_step (w, rep, seen)).1.writable = w.writable ∧
      (∀ q, q ∈ seen ∨ q ∉ L →
        (L.foldl rollback_step (w, rep, seen)).1.files q = w.files q) ∧
      (∀ p ∈ L, p ∉ seen → has_backup w p = true →
        (L.foldl rollback_step (w, rep, seen)).1.files p = w.files (backup_path p))
  | [], w, rep, seen, _, _ =>
    ⟨rfl, fun _ _ => rfl, fun p hp => absurd hp (List.not_mem_nil p)⟩
  | p0 :: rest, w, rep, seen, hW, hNB => by
    rw [List.foldl_cons]
    by_cases hseen : p0 ∈ seen
    · rw [rollback_step_seen (show p0 ∈ (w, rep, seen).2.2 from hseen)]
      obtain ⟨ha, hbf, hcf⟩ := rollback_fold_spec rest w rep seen
        (fun p hp => hW p (List.mem_cons_of_mem _ hp))
        (fun p hp q hq =>
          hNB p (List.mem_cons_of_mem _ hp) q (List.mem_cons_of_mem _ hq))
      refine ⟨ha, ?_, ?_⟩
      · intro q hq
        refine hbf q ?_
        rcases hq with h | h
        · exact Or.inl h
        · exact Or.inr (fun hm => h (List.mem_cons_of_mem _ hm))
      · intro p hp hps hb
        rcases List.mem_cons.mp hp with h | h
        · subst h; exact absurd hseen hps
        · exact hcf p h hps hb
    · cases hhb : has_backup w p0 with
      | false =>
        rw [rollback_step_nobak hseen hhb]
        obtain ⟨ha, hbf, hcf⟩ := rollback_fold_spec rest w rep (p0 :: seen)
          (fun p hp => hW p (List.mem_cons_of_mem _ hp))
          (fun p hp q hq =>
            hNB p (List.mem_cons_of_mem _ hp) q (List.mem_cons_of_mem _ hq))
        refine ⟨ha, ?_, ?_⟩
        · intro q hq
          refine hbf q ?_
          rcases hq with h | h
          · exact Or.inl (List.mem_cons_of_mem _ h)
          · exact Or.inr (fun hm => h (List.mem_cons_of_mem _ hm))
        · intro p hp hps hb
          rcases List.mem_cons.mp hp with h | h
          · subst h; simp [hb] at hhb
          · refine hcf p h ?_ hb
            intro hm
            rcases List.mem_cons.mp hm with h2 | h2
            · subst h2; simp [hb] at hhb
            · exact hps h2
      | true =>
        have hwrit : w.writable p0 = true := hW p0 (List.mem_cons_self _ _)
        obtain ⟨hret, hwr, hfp0, hfq⟩ := restore_backup_success hhb hwrit
        rw [rollback_step_restore hseen hhb hret]
        have hW' : ∀ p ∈ rest, (restore_backup w p0).1.writable p = true := by
          intro p hp; rw [hwr]; exact hW p (List.mem_cons_of_mem _ hp)
        obtain ⟨ha, hbf, hcf⟩ := rollback_fold_spec rest (restore_backup w p0).1
          rep (p0 :: seen) hW'
          (fun p hp q hq =>
            hNB p (List.mem_cons_of_mem _ hp) q (List.mem_cons_of_mem _ hq))
        refine ⟨?_, ?_, ?_⟩
        · rw [ha, hwr]
        · intro q hq
          have hqne : q ≠ p0 := by
            rcases hq with h | h
            · intro he; exact hseen (he ▸ h)
            · intro he; exact h (he ▸ List.mem_cons_self p0 rest)
          have hstep : (List.foldl rollback_step
              ((restore_backup w p0).1, rep, p0 :: seen) rest).1.files q =
              (restore_backup w p0).1.files q := by
            refine hbf q ?_
            rcases hq with h | h
            · exact Or.inl (List.mem_cons_of_mem _ h)
            · exact Or.inr (fun hm => h (List.mem_cons_of_mem _ hm))
          rw [hstep]
          exact hfq q hqne
        · intro p hp hps hb
          by_cases hpp : p = p0
          · subst hpp
            have hstep : (List.foldl rollback_step
                ((restore_backup w p).1, rep, p :: seen) rest).1.files p =
                (restore_backup w p).1.files p :=
              hbf p (Or.inl (List.mem_cons_self _ _))
            rw [hstep]
            exact hfp0
          · have hpr : p ∈ rest := (List.mem_cons.mp hp).resolve_left hpp
            have hbpne : backup_path p ≠ p0 :=
              hNB p0 (List.mem_cons_self _ _) p (List.mem_cons_of_mem _ hpr)
            have hb' : has_backup (restore_backup w p0).1 p = true := by
              unfold has_backup at hb ⊢
              rw [hfq (backup_path p) hbpne]
              exact hb
            have hps' : p ∉ p0 :: seen := by
              intro hm
              rcases List.mem_cons.mp hm with h2 | h2
              · exact hpp h2
              · exact hps h2
            rw [hcf p hpr hps' hb']
            exact hfq (backup_path p) hbpne

/-- `_rollback_installation_changes` under writability and no-aliasing
hypotheses: the patched list is truncated, errors only grow, every
backed-up member of the restore set gets its backup bytes back, and the
cache file ends up absent. -/
theorem rollback_spec (w : World) (inst : CursorInstallation) (rep : PatchReport)
    (pf : Nat)
    (hW : ∀ p ∈ restore_set inst rep pf, w.writable p = true)
    (hNB : ∀ p ∈ restore_set inst rep pf, ∀ q ∈ restore_set inst rep pf,
      backup_path q ≠ p)
    (hNC : ∀ p ∈ restore_set inst rep pf, p ≠ cache_path inst.root)
    (hcw : w.writable (cache_path inst.root) = true) :
    (_rollback_installation_changes w inst rep pf).2.patched =
      rep.patched.take pf ∧
    rep.errors.length ≤
      (_rollback_installation_changes w inst rep pf).2.errors.length ∧
    (∀ p ∈ restore_set inst rep pf, has_backup w p = true →
      (_rollback_installation_changes w inst rep pf).1.files p =
        w.files (backup_path p)) ∧
    (_rollback_installation_changes w inst rep pf).1.files
      (cache_path inst.root) = none := by
  obtain ⟨ha, hbf, hcf⟩ :=
    rollback_fold_spec (restore_set inst rep pf) w rep [] hW hNB
  unfold _rollback_installation_changes
  simp only
  have hwc : ((restore_set inst rep pf).foldl rollback_step
      (w, rep, [])).1.writable (cache_path inst.root) = true := by
    rw [ha]; exact hcw
  have hu : unlinkData ((restore_set inst rep pf).foldl rollback_step
      (w, rep, [])).1 (cache_path inst.root) = some
      { ((restore_set inst rep pf).foldl rollback_step (w, rep, [])).1 with
        files := fun q => if q = cache_path inst.root then none else
          ((restore_set inst rep pf).foldl rollback_step (w, rep, [])).1.files q,
        stats := fun q => if q = cache_path inst.root then none else
          ((restore_set inst rep pf).foldl rollback_step
            (w, rep, [])).1.stats q } := by
    unfold unlinkData
    rw [if_pos hwc]
  refine ⟨?_, ?_, ?_, ?_⟩
  · simp only [rollback_fold_patched]
  · exact rollback_fold_errors_len (restore_set inst rep pf) (w, rep, [])
  · intro p hp hb
    have hfold := hcf p hp (List.not_mem_nil p) hb
    by_cases hcs : (((restore_set inst rep pf).foldl rollback_step
        (w, rep, [])).1.files (cache_path inst.root)).isSome = true
    · rw [if_pos hcs, hu]
      show (if p = cache_path inst.root then none else _) = w.files (backup_path p)
      rw [if_neg (hNC p hp)]
      exact hfold
    · rw [if_neg hcs]
      exact hfold
  · by_cases hcs : (((restore_set inst rep pf).foldl rollback_step
        (w, rep, [])).1.files (cache_path inst.root)).isSome = true
    · rw [if_pos hcs, hu]
      show (if cache_path inst.root = cache_path inst.root then none else _) = none
      rw [if_pos rfl]
    · rw [if_neg hcs]
      cases ho : ((restore_set inst rep pf).foldl rollback_step
          (w, rep, [])).1.files (cache_path inst.root) with
      | none => rfl
      | some v => exact absurd (by rw [ho]; rfl) hcs

set_option maxRecDepth 4000 in
/-- C1: for an installation run with `dry_run` false whose mid pipeline both
recorded new errors and appended new patched files, `_patch_installation`
rolls back: every member of the restore set (the files patched during this
installation plus the loader and manifest files) that has a backup gets its
backup bytes back, the patched list is truncated to its pre-installation
value, and the installation's cache file is absent afterwards (the
conditional cache save is also skipped).  Writability of the restore set
and of the cache file, and non-aliasing of backup paths with restore-set
members and the cache file, are the filesystem sanity hypotheses. -/
theorem C1_rollback_on_failed_installation (hx : HashFns)
    (inst : CursorInstallation) (report : PatchReport) (w : World) (force : Bool)
    (only_patches : Option (List String)) (w1 : World) (rep1 : PatchReport)
    (nc1 : Option (List (String × CacheEntry)))
    (hmid : _patch_installation_mid hx inst report w false force only_patches
      = (w1, rep1, nc1))
    (h_err : report.errors.length < rep1.errors.length)
    (h_pat : report.patched.length < rep1.patched.length)
    (hW : ∀ p ∈ restore_set inst rep1 report.patched.length,
      w1.writable p = true)
    (hNB : ∀ p ∈ restore_set inst rep1 report.patched.length,
      ∀ q ∈ restore_set inst rep1 report.patched.length, backup_path q ≠ p)
    (hNC : ∀ p ∈ restore_set inst rep1 report.patched.length,
      p ≠ cache_path inst.root)
    (hcw : w1.writable (cache_path inst.root) = true) :
    (_patch_installation hx inst report w false force only_patches).2.patched
      = report.patched ∧
    (∀ p ∈ restore_set inst rep1 report.patched.length,
      has_backup w1 p = true →
      (_patch_installation hx inst report w false force only_patches).1.files p
        = w1.files (backup_path p)) ∧
    (_patch_installation hx inst report w false force only_patches).1.files
      (cache_path inst.root) = none := by
  obtain ⟨hsp, hse, hsr, hsc⟩ :=
    rollback_spec w1 inst rep1 report.patched.length hW hNB hNC hcw
  have htake : rep1.patched.take report.patched.length = report.patched := by
    obtain ⟨t1, ht1⟩ := mid_patched_ext hx inst report w false force only_patches
    rw [hmid] at ht1
    have ht1' : rep1.patched = report.patched ++ t1 := ht1
    rw [ht1', List.take_left]
  unfold _patch_installation
  simp only [hmid]
  have hcond : (!false && decide (report.errors.length < rep1.errors.length) &&
      decide (report.patched.length < rep1.patched.length)) = true := by
    simp [h_err, h_pat]
  simp only [hcond, reduceIte]
  have hne : ((_rollback_installation_changes w1 inst rep1
      report.patched.length).2.errors.length == report.errors.length) = false := by
    have hle := hse
    simp only [beq_eq_false_iff_ne, ne_eq]
    omega
  cases nc1 with
  | none =>
    refine ⟨?_, ?_, ?_⟩
    · show (_rollback_installation_changes w1 inst rep1
        report.patched.length).2.patched = report.patched
      rw [hsp]; exact htake
    · intro p hp hb
      show (_rollback_installation_changes w1 inst rep1
        report.patched.length).1.files p = w1.files (backup_path p)
      exact hsr p hp hb
    · show (_rollback_installation_changes w1 inst rep1
        report.patched.length).1.files (cache_path inst.root) = none
      exact hsc
  | some nc =>
    simp only [hne, Bool.false_eq_true, if_false]
    refine ⟨?_, ?_, ?_⟩
    · show (_rollback_installation_changes w1 inst rep1
        report.patched.length).2.patched = report.patched
      rw [hsp]; exact htake
    · intro p hp hb
      show (_rollback_installation_changes w1 inst rep1
        report.patched.length).1.files p = w1.files (backup_path p)
      exact hsr p hp hb
    · show (_rollback_installation_changes w1 inst rep1
        report.patched.length).1.files (cache_path inst.root) = none
      exact hsc

/-- C1 witness data: one installation with a patchable autorun target and a
missing second target (so the mid pipeline both patches a file and records
an error), on a fully-writable filesystem. -/
def c1_target1 : TargetFile := ⟨"r/a.js", "a", ["autorun"]⟩

def c1_target2 : TargetFile := ⟨"r/b.js", "b", ["autorun"]⟩

def c1_inst : CursorInstallation := ⟨"gui", "r", "v", [c1_target1, c1_target2]⟩

def c1_content : Content := str "this.teamSettingsService.getAutoRunControls()"

def c1_w : World :=
  { files := fun p => if p = "r/a.js" then some (.text c1_content) else none,
    stats := fun _ => none,
    writable := fun _ => true,
    clock := 0 }

def c1_hx : HashFns := ⟨fun _ => "h", fun _ => "h"⟩

set_option maxRecDepth 100000 in
theorem C1_rollback_on_failed_installation_witness :
    (_patch_installation c1_hx c1_inst {} c1_w false false none).2.patched = [] ∧
    (_patch_installation c1_hx c1_inst {} c1_w false false none).1.files "r/a.js"
      = (_patch_installation_mid c1_hx c1_inst {} c1_w false false
          none).1.files (backup_path "r/a.js") ∧
    (_patch_installation c1_hx c1_inst {} c1_w false false none).1.files
      (cache_path "r") = none := by
  have h := C1_rollback_on_failed_installation c1_hx c1_inst {} c1_w false none
    (_patch_installation_mid c1_hx c1_inst {} c1_w false false none).1
    (_patch_installation_mid c1_hx c1_inst {} c1_w false false none).2.1
    (_patch_installation_mid c1_hx c1_inst {} c1_w false false none).2.2
    rfl (by decide) (by decide) (by decide) (by decide) (by decide) (by decide)
  exact ⟨h.1, h.2.1 "r/a.js" (by decide) (by decide), h.2.2⟩

end CGP
